import Mathlib

/-!
Formal model of src/aggregator.py (DnB weekly briefing generator).

Modelling conventions, used throughout this file:

* Python dates and datetimes are represented on a single abstract integer
  timeline (`Int`).  For plain dates the integer is a day number with
  1970-01-01 = day 0 (a Thursday), so that Python's `date.weekday()` is
  `(d + 3) % 7` with Monday = 0.  Timezone conversion (`astimezone`,
  `pytz` localisation) is an order-preserving bijection of the timeline and
  is modelled as the identity; no claim in this development depends on the
  absolute calendar values, only on ordering and on success/failure of
  construction.
* Python strings are Lean `String`s.  String algorithms are implemented
  over `List Char` (`String.data`) because several core-library string
  functions do not reduce inside the kernel.  Lowercasing is implemented
  for ASCII plus the Czech letters that occur in the program's data.
* `dateutil.parser.parse` (`dtparse`) is an external library function; the
  functions that call it take an explicit parameter
  `dtp : String → Option Int` (`none` models a parse exception).  Concrete
  instantiations in witnesses use finite tables that agree with dateutil's
  behaviour on the strings involved.
* Network access (`requests`, `feedparser`) is modelled by passing the
  fetched content in as data: a fetch function `String → Option Feed`
  models `fetch_feed` (with `none` for a failed fetch / empty result).
* Python exceptions are modelled with `Except`/`Option` where a claim is
  about error behaviour: a function that can raise returns `Except String α`
  and `.error` models an uncaught exception.
-/

namespace Aggregator

/-! ## Character and string helpers (List Char level) -/

/-- ASCII check used by the lowercase model. -/
def charLower (c : Char) : Char :=
  if c.toNat ≥ 65 ∧ c.toNat ≤ 90 then Char.ofNat (c.toNat + 32)
  else
    -- Czech capital letters appearing in the program's data (Python
    -- str.lower() is full Unicode; we model the subset that can occur).
    match c with
    | 'Á' => 'á' | 'Č' => 'č' | 'Ď' => 'ď' | 'É' => 'é' | 'Ě' => 'ě'
    | 'Í' => 'í' | 'Ň' => 'ň' | 'Ó' => 'ó' | 'Ř' => 'ř' | 'Š' => 'š'
    | 'Ť' => 'ť' | 'Ú' => 'ú' | 'Ů' => 'ů' | 'Ý' => 'ý' | 'Ž' => 'ž'
    | c => c

/-- Model of Python str.lower(). -/
def strLower (s : String) : String := ⟨s.data.map charLower⟩

/-- Model of str.startswith on char lists. -/
def startsWithL : List Char → List Char → Bool
  | _, [] => true
  | [], _ :: _ => false
  | a :: as, b :: bs => a = b && startsWithL as bs

/-- Model of str.startswith. -/
def pyStartsWith (s pre : String) : Bool := startsWithL s.data pre.data

/-- Model of str.endswith. -/
def pyEndsWith (s suf : String) : Bool :=
  startsWithL s.data.reverse suf.data.reverse

/-- Substring containment on char lists (Python `x in s`). -/
def containsL (hay needle : List Char) : Bool :=
  match hay with
  | [] => startsWithL [] needle
  | _ :: rest => startsWithL hay needle || containsL rest needle

/-- Model of Python `needle in hay` on strings. -/
def pyContains (hay needle : String) : Bool := containsL hay.data needle.data

/-- Whitespace test (ASCII whitespace, as occurs in the program's data). -/
def isWs (c : Char) : Bool := c = ' ' ∨ c = '\t' ∨ c = '\n' ∨ c = '\r'

/-- Model of str.strip(). -/
def pyStrip (s : String) : String :=
  ⟨((s.data.dropWhile isWs).reverse.dropWhile isWs).reverse⟩

/-- Helper for collapseWs: the flag records whether the previous character
was whitespace (so a run contributes one space in total). -/
def collapseWsAux : Bool → List Char → List Char
  | _, [] => []
  | inWs, c :: rest =>
    if isWs c then
      if inWs then collapseWsAux true rest
      else ' ' :: collapseWsAux true rest
    else c :: collapseWsAux false rest

/-- Model of the regex substitution re.sub(r"\s+", " ", s): collapse every
maximal whitespace run to a single space. -/
def collapseWs (l : List Char) : List Char := collapseWsAux false l

/-- Model of str.rstrip(). -/
def pyRstrip (s : String) : String := ⟨(s.data.reverse.dropWhile isWs).reverse⟩

/-- Split a char list at every occurrence of a separator character. -/
def splitOnChar (sep : Char) : List Char → List (List Char)
  | [] => [[]]
  | c :: rest =>
    let r := splitOnChar sep rest
    if c = sep then [] :: r
    else
      match r with
      | [] => [[c]]
      | h :: t => (c :: h) :: t

/-- Model of str.split(sep) for a one-character separator. -/
def pySplit (s : String) (sep : Char) : List String :=
  (splitOnChar sep s.data).map (fun l => ⟨l⟩)

/-- Model of ", ".join(parts). -/
def joinComma : List String → String
  | [] => ""
  | [s] => s
  | s :: rest => s ++ ", " ++ joinComma rest

/-! ## Time model and week_bounds (aggregator.py lines 23-27)

A Python `date` is an integer day number; 1970-01-01 is day 0 and was a
Thursday, hence `weekday d = (d + 3) % 7` with Monday = 0 exactly as in
Python. `timedelta(days = n)` is integer addition. -/

/-- Model of date.weekday(): Monday = 0 ... Sunday = 6. -/
def weekday (d : Int) : Int := (d + 3) % 7

/-- Model of week_bounds: Monday-Sunday of the week containing d
(source lines 23-27: mon = d - timedelta(days=d.weekday());
sun = mon + timedelta(days=6)). -/
def week_bounds (d : Int) : Int × Int :=
  let mon := d - weekday d
  let sun := mon + 6
  (mon, sun)

/-- C6: for every date d, week_bounds d = (m, s) with m ≤ d ≤ s,
s - m = 6 days, and m a Monday (weekday m = 0); hence s is the Sunday
of the same week. -/
theorem C6_week_bounds (d : Int) :
    (week_bounds d).1 ≤ d ∧ d ≤ (week_bounds d).2 ∧
    (week_bounds d).2 - (week_bounds d).1 = 6 ∧
    weekday (week_bounds d).1 = 0 := by
  unfold week_bounds weekday
  simp only
  omega

/-! ## URL machinery: urllib.parse models

quote_plus / unquote / unquote_plus / parse_qs / urlparse as used by
resolve_news_url (source lines 142-152) and normalize_url (lines 154-167).
Percent-decoding is modelled at byte granularity for single bytes; multi-byte
UTF-8 percent sequences (which do not occur in the program's URLs) would
decode to one char per byte. -/

/-- UTF-8 encoding of one character as a byte list. -/
def utf8Bytes (c : Char) : List Nat :=
  let n := c.toNat
  if n < 0x80 then [n]
  else if n < 0x800 then [0xC0 + n / 64, 0x80 + n % 64]
  else if n < 0x10000 then [0xE0 + n / 4096, 0x80 + (n / 64) % 64, 0x80 + n % 64]
  else [0xF0 + n / 262144, 0x80 + (n / 4096) % 64, 0x80 + (n / 64) % 64, 0x80 + n % 64]

/-- Bytes that urllib.parse.quote never encodes (letters, digits, "_.-~"). -/
def isSafeByte (b : Nat) : Bool :=
  (65 ≤ b ∧ b ≤ 90) ∨ (97 ≤ b ∧ b ≤ 122) ∨ (48 ≤ b ∧ b ≤ 57) ∨
  b = 95 ∨ b = 46 ∨ b = 45 ∨ b = 126

/-- Uppercase hex digit. -/
def hexDigit (n : Nat) : Char :=
  if n < 10 then Char.ofNat (48 + n) else Char.ofNat (55 + n)

/-- Model of urllib.parse.quote_plus with default safe set: space becomes
'+', safe bytes stay, every other UTF-8 byte becomes %XX. -/
def quote_plus (s : String) : String :=
  ⟨s.data.flatMap fun c =>
    if c = ' ' then ['+']
    else (utf8Bytes c).flatMap fun b =>
      if isSafeByte b then [Char.ofNat b]
      else ['%', hexDigit (b / 16), hexDigit (b % 16)]⟩

/-- Hex digit value. -/
def hexVal (c : Char) : Option Nat :=
  if '0' ≤ c ∧ c ≤ '9' then some (c.toNat - 48)
  else if 'a' ≤ c ∧ c ≤ 'f' then some (c.toNat - 87)
  else if 'A' ≤ c ∧ c ≤ 'F' then some (c.toNat - 55)
  else none

/-- Percent-decoding; malformed escapes are kept verbatim, as in
urllib.parse.unquote. -/
def percentDecode : List Char → List Char
  | [] => []
  | '%' :: a :: b :: rest =>
    match hexVal a, hexVal b with
    | some x, some y => Char.ofNat (16 * x + y) :: percentDecode rest
    | _, _ => '%' :: percentDecode (a :: b :: rest)
  | c :: rest => c :: percentDecode rest

/-- Model of urllib.parse.unquote. -/
def unquote (s : String) : String := ⟨percentDecode s.data⟩

/-- Model of urllib.parse.unquote_plus ('+' becomes space, then decode). -/
def unquote_plus (s : String) : String :=
  ⟨percentDecode (s.data.map fun c => if c = '+' then ' ' else c)⟩

/-- Partition a char list at the first occurrence of sep:
(before, found?, after). -/
def partitionChar (sep : Char) : List Char → List Char × Bool × List Char
  | [] => ([], false, [])
  | c :: rest =>
    if c = sep then ([], true, rest)
    else
      let r := partitionChar sep rest
      (c :: r.1, r.2.1, r.2.2)

/-- Model of urllib.parse.parse_qsl with default arguments
(keep_blank_values=False): chunks split on '&'; a chunk without '=' or with
an empty value is dropped; names and values are unquote_plus-decoded. -/
def parse_qsl (qs : String) : List (String × String) :=
  (splitOnChar '&' qs.data).filterMap fun chunk =>
    match chunk with
    | [] => none
    | _ =>
      let p := partitionChar '=' chunk
      if p.2.1 then
        if p.2.2 = [] then none
        else some (unquote_plus ⟨p.1⟩, unquote_plus ⟨p.2.2⟩)
      else none

/-- Append a value under a key in an insertion-ordered dict of lists
(Python dict behaviour inside parse_qs). -/
def dictAppend : List (String × List String) → String → String →
    List (String × List String)
  | [], k, v => [(k, [v])]
  | (k0, vs) :: rest, k, v =>
    if k0 = k then (k0, vs ++ [v]) :: rest
    else (k0, vs) :: dictAppend rest k v

/-- Model of urllib.parse.parse_qs: group parse_qsl pairs into an ordered
dict of value lists. -/
def parse_qs (qs : String) : List (String × List String) :=
  (parse_qsl qs).foldl (fun d kv => dictAppend d kv.1 kv.2) []

/-- Result of urlparse (the params component, unused by the program's URLs,
is not modelled). -/
structure UrlParts where
  scheme : String
  netloc : String
  path : String
  query : String
  fragment : String
deriving DecidableEq, Repr

/-- Split at the first ':' if any: (before, after). -/
def findColon : List Char → Option (List Char × List Char)
  | [] => none
  | ':' :: rest => some ([], rest)
  | c :: rest => (findColon rest).map fun p => (c :: p.1, p.2)

/-- Characters allowed in a URL scheme. -/
def isSchemeChar (c : Char) : Bool :=
  ('a' ≤ c ∧ c ≤ 'z') ∨ ('A' ≤ c ∧ c ≤ 'Z') ∨ ('0' ≤ c ∧ c ≤ '9') ∨
  c = '+' ∨ c = '-' ∨ c = '.'

/-- Alphabetic ASCII test. -/
def isAlphaA (c : Char) : Bool := ('a' ≤ c ∧ c ≤ 'z') ∨ ('A' ≤ c ∧ c ≤ 'Z')

/-- Model of urllib.parse.urlparse following CPython urlsplit's order:
scheme, then netloc (after "//", up to one of "/?#"), then fragment, then
query. -/
def urlparse (url : String) : UrlParts :=
  let l := url.data
  -- scheme
  let (scheme, rest) :=
    match findColon l with
    | some (pre, post) =>
      if pre ≠ [] ∧ (pre.all isSchemeChar) ∧ isAlphaA (pre.headI) then
        ((strLower ⟨pre⟩).data, post)
      else ([], l)
    | none => ([], l)
  -- netloc
  let (netloc, rest) :=
    match rest with
    | '/' :: '/' :: tail =>
      (tail.takeWhile (fun c => ¬ (c = '/' ∨ c = '?' ∨ c = '#')),
       tail.dropWhile (fun c => ¬ (c = '/' ∨ c = '?' ∨ c = '#')))
    | _ => ([], rest)
  -- fragment
  let (rest, fragment) :=
    let p := partitionChar '#' rest
    if p.2.1 then (p.1, p.2.2) else (rest, [])
  -- query
  let (path, query) :=
    let p := partitionChar '?' rest
    if p.2.1 then (p.1, p.2.2) else (rest, [])
  ⟨⟨scheme⟩, ⟨netloc⟩, ⟨path⟩, ⟨query⟩, ⟨fragment⟩⟩

/-! ## resolve_news_url and normalize_url (source lines 142-167) -/

/-- Model of resolve_news_url: unwrap the Google News wrapper ?url=...
(source lines 142-152).  The try/except never fires in the model since the
modelled operations are total. -/
def resolve_news_url (link : String) : String :=
  let u := urlparse link
  if pyEndsWith u.netloc "news.google.com" then
    match (parse_qs u.query).lookup "url" with
    | some (v :: _) => unquote v
    | _ => link
  else link

/-- Query dict retained by normalize_url: every key whose lowercase form
starts with "utm_" is dropped (source line 160). -/
def normalize_qs (query : String) : List (String × List String) :=
  (parse_qs query).filter fun kv => ¬ pyStartsWith (strLower kv.1) "utm_"

/-- Join with '&'. -/
def joinAmp : List String → String
  | [] => ""
  | [s] => s
  | s :: rest => s ++ "&" ++ joinAmp rest

/-- Model of normalize_url (source lines 154-167): keep the URL unchanged
when scheme or netloc is missing, drop utm_* query keys (nothing else),
and rebuild scheme://netloc/path plus the re-encoded query. -/
def normalize_url (u : String) : String :=
  let p := urlparse u
  if p.scheme = "" ∨ p.netloc = "" then u
  else
    let qs := normalize_qs p.query
    let base := p.scheme ++ "://" ++ p.netloc ++ p.path
    if qs ≠ [] then
      let q := joinAmp (qs.filterMap fun kv =>
        match kv.2 with
        | v :: _ => some (kv.1 ++ "=" ++ quote_plus v)
        | [] => none)
      base ++ "?" ++ q
    else base

/-! ## Feed entries and items (source lines 107-127, 313-351) -/

/-- Relevant fields of a feedparser entry.  `none` models an absent key;
Python truthiness (empty string / empty tuple are falsy) is checked at the
use sites, as in the source. -/
structure Entry where
  link : Option String
  title : Option String
  summary : Option String
  description : Option String
  published : Option String
  updated : Option String
  created : Option String
  published_parsed : Option (List Int)
  updated_parsed : Option (List Int)
deriving DecidableEq, Repr

/-- Python `x or y` for an optional string (None and "" are falsy). -/
def pyOrS (v : Option String) (dflt : String) : String :=
  match v with
  | some s => if s = "" then dflt else s
  | none => dflt

/-- Model of clean_text (source lines 107-111).  HTML tag stripping and
entity unescaping via BeautifulSoup are modelled as the identity (the
claims' inputs contain no markup); whitespace collapse, strip, truncation
to the limit, and the final rstrip follow the source. -/
def clean_text (s : String) (limit : Nat) : String :=
  if s = "" then ""
  else pyRstrip ⟨(pyStrip ⟨collapseWs s.data⟩).data.take limit⟩

/-- Leap-year rule of the proleptic Gregorian calendar (datetime module). -/
def isLeap (y : Int) : Bool := (y % 4 = 0 ∧ y % 100 ≠ 0) ∨ y % 400 = 0

/-- Days in a month, as validated by datetime's constructor. -/
def daysInMonth (y m : Int) : Int :=
  if m = 2 then (if isLeap y then 29 else 28)
  else if m = 4 ∨ m = 6 ∨ m = 9 ∨ m = 11 then 30 else 31

/-- Monotone injective encoding of a valid datetime tuple onto the abstract
integer timeline (only ordering and injectivity matter to the claims). -/
def encodeDT (y m d h mi s : Int) : Int :=
  ((((y * 16 + m) * 32 + d) * 24 + h) * 60 + mi) * 60 + s

/-- Model of datetime(*t[:6], tzinfo=utc): `none` models the TypeError /
ValueError raised on a malformed tuple (fewer than three components, or a
field outside the ranges datetime accepts). -/
def mkDatetimeUTC (t : List Int) : Option Int :=
  let build (y m d h mi s : Int) : Option Int :=
    if 1 ≤ y ∧ y ≤ 9999 ∧ 1 ≤ m ∧ m ≤ 12 ∧ 1 ≤ d ∧ d ≤ daysInMonth y m ∧
       0 ≤ h ∧ h ≤ 23 ∧ 0 ≤ mi ∧ mi ≤ 59 ∧ 0 ≤ s ∧ s ≤ 59 then
      some (encodeDT y m d h mi s)
    else none
  match t with
  | [y, m, d] => build y m d 0 0 0
  | [y, m, d, h] => build y m d h 0 0
  | [y, m, d, h, mi] => build y m d h mi 0
  | [y, m, d, h, mi, s] => build y m d h mi s
  | _ => none

/-- Model of get_best_date (source lines 113-123), parameterised by the
dateutil parser `dtp` (`none` models a parse exception).  The string keys
published/updated/created are tried inside try/except: a failure falls
through to the next key.  The parsed-tuple branch calls the datetime
constructor OUTSIDE any try block, so a malformed tuple raises; this is
modelled by `Except.error`. -/
def get_best_date (dtp : String → Option Int) (e : Entry) :
    Except String (Option Int) :=
  let tryStr (v : Option String) : Option Int :=
    match v with
    | some s => if s = "" then none else dtp s
    | none => none
  match tryStr e.published with
  | some d => .ok (some d)
  | none =>
  match tryStr e.updated with
  | some d => .ok (some d)
  | none =>
  match tryStr e.created with
  | some d => .ok (some d)
  | none =>
  let tryParsed (v : Option (List Int)) : Option (List Int) :=
    match v with
    | some t => if t = [] then none else some t
    | none => none
  match tryParsed e.published_parsed with
  | some t =>
    match mkDatetimeUTC (t.take 6) with
    | some d => .ok (some d)
    | none => .error "datetime() raised on malformed published_parsed"
  | none =>
  match tryParsed e.updated_parsed with
  | some t =>
    match mkDatetimeUTC (t.take 6) with
    | some d => .ok (some d)
    | none => .error "datetime() raised on malformed updated_parsed"
  | none => .ok none

/-- Normalized news item (source entry_to_item, lines 320-326).  The field
`sect` models the "section" dict key added later in the pipeline (emptied
at construction since entry_to_item does not set it). -/
structure Item where
  title : String
  summary : String
  link : String
  date : Option Int
  source : String
  sect : String
deriving DecidableEq, Repr

/-- Model of entry_to_item (source lines 320-326); propagates the uncaught
exception that get_best_date can raise. -/
def entry_to_item (dtp : String → Option Int) (e : Entry)
    (source_label : String) : Except String Item := do
  let raw_link := pyOrS e.link ""
  let link := normalize_url (resolve_news_url raw_link)
  let title := clean_text (pyOrS e.title "") 400
  let desc := clean_text (pyOrS e.summary (pyOrS e.description "")) 400
  let dt ← get_best_date dtp e
  return ⟨title, desc, link, dt, source_label, ""⟩

/-- Model of within (source lines 103-105): the timezone conversion and
truncation of a datetime to its date are order-preserving and modelled as
the identity on the shared timeline. -/
def within (dt s e : Int) : Bool := s ≤ dt ∧ dt ≤ e

/-! ## Genre heuristics and configuration (source lines 212-263) -/

/-- POS keyword list (source lines 232-236). -/
def POS : List String :=
  ["drum and bass", "drum’n’bass", "drum n bass", "dnb", "dn\x27b", "jungle",
   "neurofunk", "liquid", "jump up", "rollers", "ukf", "hospital records",
   "let it roll", "ram records", "blackout music", "shogun audio"]

/-- NEG keyword list (source lines 237-240). -/
def NEG : List String :=
  ["techno", "tech house", "house", "trance", "edm pop", "electro house",
   "hardstyle", "psytrance", "deep house", "progressive house"]

/-- CZSK_TOKENS (source lines 241-243). -/
def CZSK_TOKENS : List String :=
  ["dnb", "drum and bass", "drum’n’bass", "drum n bass", "neuro", "liquid",
   "jump up", "let it roll"]

/-- ALLOWLIST of genre-dedicated domains (source lines 244-248). -/
def ALLOWLIST : List String :=
  ["mixmag.net", "ra.co", "ukf.com", "djmag.com", "edm.com",
   "dancingastronaut.com", "rollingstone.com.au", "billboard.com",
   "youtube.com", "youtu.be", "rave.cz", "musicserver.cz", "dogsonacid.com"]

/-- SECONDARY_SITES (source lines 225-230). -/
def SECONDARY_SITES : List (String × String) :=
  [("EDM.com", "edm.com"), ("Dancing Astronaut", "dancingastronaut.com"),
   ("Rolling Stone Australia", "rollingstone.com.au"),
   ("Billboard", "billboard.com")]

/-- Minimum item counts (source lines 250-252). -/
def MIN_WORLD : Nat := 5

/-- Minimum domestic count (source line 251). -/
def MIN_CZSK : Nat := 2

/-- Minimum reddit count (source line 252). -/
def MIN_REDDIT : Nat := 2

/-- Model of is_dnb_related (source lines 254-259). -/
def is_dnb_related (title summary url : String) : Bool :=
  let t := strLower (title ++ " " ++ summary)
  let host := strLower (urlparse url).netloc
  if ALLOWLIST.any (fun d => pyEndsWith host d) then
    ¬ NEG.any (fun n => pyContains t n)
  else
    POS.any (fun p => pyContains t p) ∧ ¬ NEG.any (fun n => pyContains t n)

/-- Model of is_czsk_dnb (source lines 261-263). -/
def is_czsk_dnb (title summary : String) : Bool :=
  let t := strLower (title ++ " " ++ summary)
  CZSK_TOKENS.any (fun x => pyContains t x) ∧
    ¬ NEG.any (fun n => pyContains t n)

/-- Model of google_news_feed (source lines 172-181). -/
def google_news_feed (site : String) (when_days : Int) : String :=
  let hgc :=
    if pyEndsWith site ".cz" ∨ pyEndsWith site ".sk" ∨
       site = "rave.cz" ∨ site = "musicserver.cz" then
      ("cs", "CZ", "CZ:cs")
    else ("en-US", "US", "US:en")
  let query := "site:" ++ site ++ " when:" ++ toString when_days ++ "d"
  let base := "https://news.google.com/rss/search?q="
  let tail := "&hl=" ++ hgc.1 ++ "&gl=" ++ hgc.2.1 ++ "&ceid=" ++ hgc.2.2
  base ++ quote_plus query ++ tail

/-- Host capture of re.findall(r"https?://([^/]+)", link): first match of a
scheme followed by at least one non-slash character. -/
def findHostAfterScheme : List Char → Option (List Char)
  | [] => none
  | l@(_ :: rest) =>
    if startsWithL l "https://".data then
      match (l.drop 8).takeWhile (fun c => c ≠ '/') with
      | [] => findHostAfterScheme rest
      | h => some h
    else if startsWithL l "http://".data then
      match (l.drop 7).takeWhile (fun c => c ≠ '/') with
      | [] => findHostAfterScheme rest
      | h => some h
    else findHostAfterScheme rest

/-- Model of classify_section (source lines 313-318); the entry and source
label parameters are unused by the source body, which inspects only the
link. -/
def classify_section (link : String) : String :=
  let host0 : List Char := (findHostAfterScheme link.data).getD []
  let host : String :=
    if startsWithL host0 "www.".data then ⟨host0.drop 4⟩ else ⟨host0⟩
  let tld : String :=
    if host ≠ "" then ((pySplit host '.').getLastD "") else ""
  if tld = "cz" ∨ tld = "sk" ∨ pyContains host "rave.cz" ∨
     pyContains host "musicserver.cz" then "czsk"
  else "world"

/-! ## uniq_key, dedupe, pick (source lines 349-351, 385-392, 1230-1231) -/

/-- Model of uniq_key (source lines 349-351).  The source hashes the
concatenation title + link with sha1 and truncates; the model keeps the
concatenation itself, which identifies exactly the same items except for
sha1 collisions between distinct concatenations (not modelled). -/
def uniq_key (it : Item) : String := it.title ++ it.link

/-- Sorting key order of sorted(lst, key=date, reverse=True).  Stable
insertion sort over a total relation computes the same list as Python's
stable sort. -/
def sortByDateDesc (l : List Item) : List Item :=
  l.insertionSort fun a b => b.date.getD 0 ≤ a.date.getD 0

/-- Loop of dedupe (source lines 386-391).  The cap check models Python
truthiness: `if maxn and len(out) >= maxn` is false when maxn is None or 0.
Items reaching dedupe in the pipeline always carry a date (see C7); the
sort key models a missing date as 0, where the source would raise. -/
def dedupeLoop : List Item → List String → List Item → Option Nat → List Item
  | [], _, out, _ => out
  | it :: rest, seen, out, maxn =>
    let k := uniq_key it
    if k ∈ seen then dedupeLoop rest seen out maxn
    else
      let out2 := out ++ [it]
      match maxn with
      | some m =>
        if m ≠ 0 ∧ m ≤ out2.length then out2
        else dedupeLoop rest (k :: seen) out2 maxn
      | none => dedupeLoop rest (k :: seen) out2 maxn

/-- Model of dedupe (source lines 385-392). -/
def dedupe (lst : List Item) (maxn : Option Nat) : List Item :=
  dedupeLoop (sortByDateDesc lst) [] [] maxn

/-- Model of pick (source lines 1230-1231): items[:need] when enough items,
otherwise the list unchanged. -/
def pick (items : List Item) (need : Nat) : List Item :=
  if need ≤ items.length then items.take need else items

/-- World-section selection applied by the pipeline (source lines 1286 and
1290): dedupe with cap 20, then pick the first MIN_WORLD. -/
def worldSelection (primary : List Item) : List Item :=
  pick (dedupe primary (some 20)) MIN_WORLD

/-- Domestic-section selection (source lines 1287 and 1291). -/
def czskSelection (primary : List Item) : List Item :=
  pick (dedupe primary (some 10)) MIN_CZSK

/-- Reddit-section selection (source lines 1288 and 1292):
pick(dedupe(reddit, 8), max(MIN_REDDIT, 3)). -/
def redditSelection (primary : List Item) : List Item :=
  pick (dedupe primary (some 8)) (max MIN_REDDIT 3)

/-! ## harvest_sites (source lines 366-383) and the FEEDS loop
(source lines 1260-1284).  Network access is a parameter
`fetchf : String → Option (List Entry)` standing for fetch_feed: `none`
models a failed fetch or a feed without entries. -/

/-- Per-feed entry loop of harvest_sites (source lines 373-382). -/
def harvestEntries (dtp : String → Option Int) (label : String)
    (start_date end_date : Int) : List Entry → Except String (List Item)
  | [] => .ok []
  | e :: rest => do
    let it ← entry_to_item dtp e label
    let tl ← harvestEntries dtp label start_date end_date rest
    match it.date with
    | none => return tl
    | some d =>
      if ¬ within d start_date end_date then return tl
      else if ¬ is_dnb_related it.title it.summary it.link then return tl
      else return { it with sect := "world" } :: tl

/-- Model of harvest_sites (source lines 366-383): wider 28-day lookback
query per secondary site, keeping dated, in-window, genre-related items. -/
def harvest_sites (dtp : String → Option Int)
    (fetchf : String → Option (List Entry)) (sites : List (String × String))
    (start_date end_date : Int) : Except String (List Item) :=
  match sites with
  | [] => .ok []
  | (label, domain) :: rest => do
    let tl ← harvest_sites dtp fetchf rest start_date end_date
    match fetchf (google_news_feed domain 28) with
    | none => return tl
    | some [] => return tl
    | some entries => do
      let hd ← harvestEntries dtp label start_date end_date entries
      return hd ++ tl

/-- Feed registry record (source lines 268-308). -/
structure FeedCfg where
  name : String
  kind : String
  sect : String
  url : String
  source_label : String
deriving DecidableEq, Repr

/-- Per-entry body of the FEEDS loop (source lines 1264-1284), returning
the (world, czsk, reddit) items this entry contributes to. -/
def processEntry (dtp : String → Option Int) (f : FeedCfg)
    (prev_mon prev_sun : Int) (e : Entry) :
    Except String (List Item × List Item × List Item) := do
  let it ← entry_to_item dtp e f.source_label
  match it.date with
  | none => return ([], [], [])
  | some d =>
    if f.sect = "reddit" then
      if within d prev_mon prev_sun then return ([], [], [it])
      else return ([], [], [])
    else
      let sec := classify_section it.link
      let it2 := { it with sect := sec }
      if sec = "czsk" then
        if ¬ is_czsk_dnb it2.title it2.summary then return ([], [], [])
        else if within d prev_mon prev_sun then return ([], [it2], [])
        else return ([], [], [])
      else
        if ¬ is_dnb_related it2.title it2.summary it2.link then
          return ([], [], [])
        else if within d prev_mon prev_sun then return ([it2], [], [])
        else return ([], [], [])

/-- Entry loop of the FEEDS processing (source lines 1264-1284). -/
def processEntryList (dtp : String → Option Int) (f : FeedCfg)
    (prev_mon prev_sun : Int) :
    List Entry → Except String (List Item × List Item × List Item)
  | [] => .ok ([], [], [])
  | e :: rest => do
    let h ← processEntry dtp f prev_mon prev_sun e
    let t ← processEntryList dtp f prev_mon prev_sun rest
    return (h.1 ++ t.1, h.2.1 ++ t.2.1, h.2.2 ++ t.2.2)

/-- Model of the FEEDS loop (source lines 1260-1284): accumulate the
previous-week world/domestic/reddit item lists over all feeds. -/
def process_feeds (dtp : String → Option Int)
    (fetchf : String → Option (List Entry)) (prev_mon prev_sun : Int) :
    List FeedCfg → Except String (List Item × List Item × List Item)
  | [] => .ok ([], [], [])
  | f :: rest => do
    let t ← process_feeds dtp fetchf prev_mon prev_sun rest
    match fetchf f.url with
    | none => return t
    | some [] => return t
    | some entries => do
      let h ← processEntryList dtp f prev_mon prev_sun entries
      return (h.1 ++ t.1, h.2.1 ++ t.2.1, h.2.2 ++ t.2.2)

/-! ## Citation references: add_ref (source lines 353-364) and the
trailing reference list (source lines 1348-1351) -/

/-- Global reference state: all_refs is the ordered list of
(label, url) pairs, ref_map the dict url → 1-based index. -/
structure RefState where
  all_refs : List (String × String)
  ref_map : List (String × Nat)
deriving DecidableEq, Repr

/-- URL normalisation applied first by add_ref (source lines 358-359):
an empty (falsy) URL becomes "about:blank". -/
def nurl (u : String) : String := if u = "" then "about:blank" else u

/-- Model of add_ref (source lines 357-364): an empty (falsy) URL becomes
"about:blank"; a known URL returns its existing index; a new URL is
appended with index len(all_refs) + 1. -/
def add_ref (st : RefState) (url label : String) : Nat × RefState :=
  let u := nurl url
  match st.ref_map.lookup u with
  | some i => (i, st)
  | none =>
    let idx := st.all_refs.length + 1
    (idx, ⟨st.all_refs ++ [(label, u)], st.ref_map ++ [(u, idx)]⟩)

/-- Run a sequence of add_ref calls from a given state, collecting the
returned indices. -/
def runAddRefFrom (st : RefState) :
    List (String × String) → List Nat × RefState
  | [] => ([], st)
  | (u, lb) :: rest =>
    let r1 := add_ref st u lb
    let r2 := runAddRefFrom r1.2 rest
    (r1.1 :: r2.1, r2.2)

/-- Run a sequence of add_ref calls from the initial empty state
(source line 355: all_refs, ref_map = [], dict()). -/
def runAddRef (calls : List (String × String)) : List Nat × RefState :=
  runAddRefFrom ⟨[], []⟩ calls

/-- Trailing reference list lines (source lines 1348-1351):
enumerate(all_refs, start=1) rendered as "[i]: url". -/
def refsLinesFrom (i : Nat) : List (String × String) → List String
  | [] => []
  | (_, u) :: rest => ("[" ++ toString i ++ "]: " ++ u) :: refsLinesFrom (i + 1) rest

/-- Model of the refs_lines rendering (without the "## Zdroje" header). -/
def refs_lines (st : RefState) : List String := refsLinesFrom 1 st.all_refs

/-- Position of the first occurrence of a string in a list. -/
def firstIdx : List String → String → Option Nat
  | [], _ => none
  | a :: rest, u => if a = u then some 0 else (firstIdx rest u).map (· + 1)

/-- Pair each list element with its 1-based (or start-based) index. -/
def idxPairs : List String → Nat → List (String × Nat)
  | [], _ => []
  | u :: rest, s => (u, s) :: idxPairs rest (s + 1)

/-- First occurrences of the input not already in seen, in input order. -/
def firstOccsAux : List String → List String → List String
  | _, [] => []
  | seen, u :: rest =>
    if u ∈ seen then firstOccsAux seen rest
    else u :: firstOccsAux (seen ++ [u]) rest

/-- Distinct strings of a list in order of first appearance. -/
def firstOccs (l : List String) : List String := firstOccsAux [] l

/-- Invariant tying ref_map to all_refs: the dict is exactly the URLs of
all_refs paired with their 1-based positions, and those URLs are distinct. -/
def RefInv (st : RefState) : Prop :=
  st.ref_map = idxPairs (st.all_refs.map Prod.snd) 1 ∧
  (st.all_refs.map Prod.snd).Nodup

theorem firstIdx_eq_none_iff (l : List String) (u : String) :
    firstIdx l u = none ↔ u ∉ l := by
  induction l with
  | nil => simp [firstIdx]
  | cons a rest ih =>
    by_cases hau : a = u
    · simp [firstIdx, hau]
    · simp [firstIdx, hau, Option.map_eq_none', ih, Ne.symm hau]

theorem firstIdx_append {l : List String} {u : String} {j : Nat}
    (h : firstIdx l u = some j) (t : List String) :
    firstIdx (l ++ t) u = some j := by
  induction l generalizing j with
  | nil => simp [firstIdx] at h
  | cons a rest ih =>
    by_cases hau : a = u
    · simp only [firstIdx, hau, if_pos rfl] at h ⊢
      simpa using h
    · simp only [firstIdx, hau, if_neg, List.cons_append] at h ⊢
      obtain ⟨j0, hj0, rfl⟩ := Option.map_eq_some'.mp h
      simp [ih hj0]

theorem firstIdx_append_not_mem {l : List String} {u : String}
    (h : u ∉ l) (t : List String) :
    firstIdx (l ++ u :: t) u = some l.length := by
  induction l with
  | nil => simp [firstIdx]
  | cons a rest ih =>
    have hau : a ≠ u := by
      intro hc; exact h (hc ▸ List.mem_cons_self a rest)
    have hrest : u ∉ rest := fun hc => h (List.mem_cons_of_mem a hc)
    simp [firstIdx, hau, ih hrest]

theorem firstIdx_get_of_nodup (l : List String) (h : l.Nodup)
    (i : Fin l.length) : firstIdx l (l.get i) = some i.val := by
  induction l with
  | nil => exact absurd i.isLt (by simp)
  | cons a rest ih =>
    match i with
    | ⟨0, _⟩ => simp [firstIdx]
    | ⟨k + 1, hk⟩ =>
      have hk2 : k < rest.length := by simpa using Nat.lt_of_succ_lt_succ hk
      have hne : a ≠ rest.get ⟨k, hk2⟩ := fun hc =>
        (List.nodup_cons.mp h).1 (hc ▸ List.get_mem rest k hk2)
      have hstep : (a :: rest).get ⟨k + 1, hk⟩ = rest.get ⟨k, hk2⟩ := rfl
      rw [hstep]
      have hne2 : a ≠ rest[k] := hne
      have hih : firstIdx rest rest[k] = some k :=
        ih (List.nodup_cons.mp h).2 ⟨k, hk2⟩
      simp [firstIdx, hne2, hih]

theorem lookup_idxPairs (urls : List String) (s : Nat) (u : String) :
    List.lookup u (idxPairs urls s) = (firstIdx urls u).map (· + s) := by
  induction urls generalizing s with
  | nil => simp [idxPairs, firstIdx]
  | cons a rest ih =>
    by_cases hau : a = u
    · simp [idxPairs, firstIdx, List.lookup, hau]
    · have : (u == a) = false := by
        simp [Ne.symm hau]
      simp only [idxPairs, firstIdx, List.lookup, this, if_neg hau, ih]
      rcases firstIdx rest u with _ | j
      · simp
      · simp only [Option.map_some']
        congr 1
        omega

theorem idxPairs_append (l : List String) (u : String) (s : Nat) :
    idxPairs (l ++ [u]) s = idxPairs l s ++ [(u, s + l.length)] := by
  induction l generalizing s with
  | nil => simp [idxPairs]
  | cons a rest ih =>
    show (a, s) :: idxPairs (rest ++ [u]) (s + 1)
        = (a, s) :: idxPairs rest (s + 1) ++ [(u, s + (a :: rest).length)]
    rw [ih (s + 1), List.length_cons]
    have h2 : s + 1 + rest.length = s + (rest.length + 1) := by omega
    rw [h2, List.cons_append]

theorem mem_firstOccsAux {u : String} :
    ∀ (l seen : List String), u ∈ firstOccsAux seen l → u ∈ l := by
  intro l
  induction l with
  | nil => intro seen h; simp [firstOccsAux] at h
  | cons a rest ih =>
    intro seen h
    by_cases ha : a ∈ seen
    · simp only [firstOccsAux, if_pos ha] at h
      exact List.mem_cons_of_mem a (ih _ h)
    · simp only [firstOccsAux, if_neg ha, List.mem_cons] at h
      rcases h with h | h
      · exact h ▸ List.mem_cons_self a rest
      · exact List.mem_cons_of_mem a (ih _ h)

/-- Characterisation of a run of add_ref calls from any state satisfying
the invariant: the final URL list extends the initial one with the first
occurrences of the normalised call URLs, the invariant is preserved, and
every returned index is 1 + the position of the call's normalised URL in
the final URL list. -/
theorem runAddRefFrom_spec (calls : List (String × String)) :
    ∀ st : RefState, RefInv st →
    (runAddRefFrom st calls).2.all_refs.map Prod.snd
      = st.all_refs.map Prod.snd ++
        firstOccsAux (st.all_refs.map Prod.snd)
          (calls.map fun c => nurl c.1) ∧
    RefInv (runAddRefFrom st calls).2 ∧
    (runAddRefFrom st calls).1
      = calls.map fun c =>
          ((firstIdx ((runAddRefFrom st calls).2.all_refs.map Prod.snd)
            (nurl c.1)).getD 0) + 1 := by
  induction calls with
  | nil =>
    intro st hst
    simp [runAddRefFrom, firstOccsAux, hst]
  | cons c rest ih =>
    intro st hst
    obtain ⟨u, lb⟩ := c
    have hmap : st.ref_map = idxPairs (st.all_refs.map Prod.snd) 1 := hst.1
    have hnd : (st.all_refs.map Prod.snd).Nodup := hst.2
    by_cases hhit : nurl u ∈ st.all_refs.map Prod.snd
    · -- URL already present: state unchanged, index recalled from the dict
      obtain ⟨j, hj⟩ : ∃ j, firstIdx (st.all_refs.map Prod.snd) (nurl u) = some j := by
        cases h : firstIdx (st.all_refs.map Prod.snd) (nurl u) with
        | none => exact absurd ((firstIdx_eq_none_iff _ _).mp h) (by simpa using hhit)
        | some j => exact ⟨j, rfl⟩
      have hlook : st.ref_map.lookup (nurl u) = some (j + 1) := by
        rw [hmap, lookup_idxPairs, hj]; rfl
      have hstep : add_ref st u lb = (j + 1, st) := by
        simp only [add_ref, hlook]
      obtain ⟨h1, h2, h3⟩ := ih st hst
      refine ⟨?_, ?_, ?_⟩
      · simp only [runAddRefFrom, hstep, List.map_cons]
        rw [h1]
        simp [firstOccsAux, hhit]
      · simp only [runAddRefFrom, hstep]
        exact h2
      · simp only [runAddRefFrom, hstep, List.map_cons]
        refine congrArg₂ List.cons ?_ h3
        have hpre : firstIdx ((runAddRefFrom st rest).2.all_refs.map Prod.snd)
            (nurl u) = some j := by
          rw [h1]; exact firstIdx_append hj _
        simp [hpre]
    · -- URL is new: appended with index len(all_refs) + 1
      have hnone : firstIdx (st.all_refs.map Prod.snd) (nurl u) = none :=
        (firstIdx_eq_none_iff _ _).mpr hhit
      have hlook : st.ref_map.lookup (nurl u) = none := by
        rw [hmap, lookup_idxPairs, hnone]; rfl
      set st2 : RefState :=
        ⟨st.all_refs ++ [(lb, nurl u)],
         st.ref_map ++ [(nurl u, st.all_refs.length + 1)]⟩ with hst2
      have hstep : add_ref st u lb = (st.all_refs.length + 1, st2) := by
        simp only [add_ref, hlook, hst2]
      have hst2urls : st2.all_refs.map Prod.snd
          = st.all_refs.map Prod.snd ++ [nurl u] := by
        simp [hst2]
      have hinv2 : RefInv st2 := by
        constructor
        · show st.ref_map ++ [(nurl u, st.all_refs.length + 1)] = _
          rw [hst2urls, idxPairs_append, hmap]
          have : st.all_refs.length = (st.all_refs.map Prod.snd).length := by simp
          rw [this, Nat.add_comm 1]
        · rw [hst2urls]
          simp only [List.nodup_append, List.nodup_cons]
          exact ⟨hnd, by simp, by simpa using hhit⟩
      obtain ⟨h1, h2, h3⟩ := ih st2 hinv2
      refine ⟨?_, ?_, ?_⟩
      · simp only [runAddRefFrom, hstep, List.map_cons]
        rw [h1, hst2urls]
        simp [firstOccsAux, hhit, List.append_assoc]
      · simp only [runAddRefFrom, hstep]
        exact h2
      · simp only [runAddRefFrom, hstep, List.map_cons]
        refine congrArg₂ List.cons ?_ h3
        have hfin : firstIdx ((runAddRefFrom st2 rest).2.all_refs.map Prod.snd)
            (nurl u) = some st.all_refs.length := by
          rw [h1, hst2urls, List.append_assoc]
          have := firstIdx_append_not_mem hhit
            (firstOccsAux (st.all_refs.map Prod.snd ++ [nurl u])
              (rest.map fun c => nurl c.1))
          simpa using this
        simp [hfin]

/-- The initial reference state satisfies the invariant. -/
theorem refInv_init : RefInv ⟨[], []⟩ := ⟨rfl, List.nodup_nil⟩

/-- nurl never yields the empty string. -/
theorem nurl_ne_empty (u : String) : nurl u ≠ "" := by
  by_cases h : u = "" <;> simp [nurl, h]

/-- Length of the rendered reference lines. -/
theorem refsLinesFrom_length (l : List (String × String)) (i : Nat) :
    (refsLinesFrom i l).length = l.length := by
  induction l generalizing i with
  | nil => rfl
  | cons p rest ih => obtain ⟨lb, u⟩ := p; simp [refsLinesFrom, ih]

/-- Content of the k-th rendered reference line. -/
theorem refsLinesFrom_get (l : List (String × String)) (s k : Nat)
    (hk : k < l.length) :
    (refsLinesFrom s l).get ⟨k, by rw [refsLinesFrom_length]; exact hk⟩
      = "[" ++ toString (s + k) ++ "]: " ++ (l.get ⟨k, hk⟩).2 := by
  induction l generalizing s k with
  | nil => exact absurd hk (by simp)
  | cons p rest ih =>
    obtain ⟨lb, u⟩ := p
    match k with
    | 0 => simp [refsLinesFrom]
    | k + 1 =>
      have hk2 : k < rest.length := Nat.lt_of_succ_lt_succ hk
      have := ih (s + 1) k hk2
      simp only [refsLinesFrom, List.get_cons_succ]
      rw [this]
      have harith : s + 1 + k = s + (k + 1) := by omega
      rw [harith]

/-- C8 counterexample: the calls add_ref("", ...) then
add_ref("about:blank", ...) use two distinct URL strings, yet both return
index 1 and only one reference entry exists, contradicting the claim that
distinct URLs receive consecutive indices 1, 2, ... in first-appearance
order (which would demand indices [1, 2]). -/
theorem C8_counterexample :
    (runAddRef [("", "DnBHeard"), ("about:blank", "Roxy")]).1 = [1, 1] ∧
    ("" : String) ≠ "about:blank" ∧
    (runAddRef [("", "DnBHeard"), ("about:blank", "Roxy")]).2.all_refs.length
      = 1 := by
  refine ⟨rfl, by decide, rfl⟩

/-- C8 (amended): for every sequence of add_ref calls with nonempty URLs
(an empty URL is first replaced by "about:blank", see C10): the stored URL
list is the distinct call URLs in order of first appearance; every call
returns 1 + the position of its URL's first appearance (hence two calls
with the same URL return the same index and distinct URLs receive
consecutive indices 1, 2, 3, ... in first-appearance order); the URL
stored at position i of the trailing list carries index i + 1 in the dict;
and the rendered trailing line at position i reads "[i+1]: url". -/
theorem C8_add_ref_numbering (calls : List (String × String))
    (hne : ∀ c ∈ calls, c.1 ≠ "") :
    (runAddRef calls).2.all_refs.map Prod.snd
        = firstOccs (calls.map Prod.fst) ∧
    (runAddRef calls).1 = calls.map (fun c =>
        ((firstIdx (firstOccs (calls.map Prod.fst)) c.1).getD 0) + 1) ∧
    (∀ i (hi : i < (runAddRef calls).2.all_refs.length),
      List.lookup (((runAddRef calls).2.all_refs.get ⟨i, hi⟩).2)
        (runAddRef calls).2.ref_map = some (i + 1)) ∧
    (∀ i (hi : i < (runAddRef calls).2.all_refs.length),
      (refs_lines (runAddRef calls).2).get
          ⟨i, by rw [refs_lines, refsLinesFrom_length]; exact hi⟩
        = "[" ++ toString (i + 1) ++ "]: "
            ++ (((runAddRef calls).2.all_refs.get ⟨i, hi⟩).2)) := by
  obtain ⟨h1, h2, h3⟩ := runAddRefFrom_spec calls ⟨[], []⟩ refInv_init
  have hrun : runAddRefFrom ⟨[], []⟩ calls = runAddRef calls := rfl
  rw [hrun] at h1 h2 h3
  have hmapn : calls.map (fun c => nurl c.1) = calls.map Prod.fst := by
    refine List.map_congr_left ?_
    intro c hc
    simp [nurl, hne c hc]
  have hurls : (runAddRef calls).2.all_refs.map Prod.snd
      = firstOccs (calls.map Prod.fst) := by
    rw [h1, hmapn]
    rfl
  refine ⟨hurls, ?_, ?_, ?_⟩
  · rw [h3]
    refine List.map_congr_left ?_
    intro c hc
    rw [show nurl c.1 = c.1 by simp [nurl, hne c hc]]
    show (firstIdx ((runAddRef calls).2.all_refs.map Prod.snd) c.1).getD 0 + 1
        = _
    rw [hurls]
  · intro i hi
    have hnd := h2.2
    have hmap := h2.1
    have hget : ((runAddRef calls).2.all_refs.get ⟨i, hi⟩).2
        = ((runAddRef calls).2.all_refs.map Prod.snd).get
            ⟨i, by rw [List.length_map]; exact hi⟩ := by
      simp
    rw [hget, hmap, lookup_idxPairs,
      firstIdx_get_of_nodup _ hnd ⟨i, by rw [List.length_map]; exact hi⟩]
    rfl
  · intro i hi
    have hlines := refsLinesFrom_get (runAddRef calls).2.all_refs 1 i hi
    simp only [refs_lines]
    rw [hlines]
    have harith : 1 + i = i + 1 := by omega
    rw [harith]

/-- Witness for C8_add_ref_numbering at a concrete call sequence: the
repeated URL gets its first index back and the fresh URL the next index. -/
theorem C8_add_ref_numbering_witness :
    (runAddRef [("u1", "A"), ("u2", "B"), ("u1", "C")]).1 = [1, 2, 1] := by
  have h := C8_add_ref_numbering [("u1", "A"), ("u2", "B"), ("u1", "C")]
    (by decide)
  exact h.2.1.trans (by decide)

/-- C10: add_ref replaces an empty (missing) URL by the placeholder
"about:blank": the call behaves exactly like a call with URL
"about:blank", any two calls with empty URLs in a run return the same
index, and the trailing reference list never stores an empty URL. -/
theorem C10_add_ref_empty_url (calls : List (String × String)) :
    (∀ (st : RefState) (lb : String),
      add_ref st "" lb = add_ref st "about:blank" lb) ∧
    (∀ (k1 k2 : Nat) (c1 c2 : String × String),
      calls.get? k1 = some c1 → calls.get? k2 = some c2 →
      c1.1 = "" → c2.1 = "" →
      (runAddRef calls).1.get? k1 = (runAddRef calls).1.get? k2) ∧
    (∀ p ∈ (runAddRef calls).2.all_refs, p.2 ≠ "") := by
  obtain ⟨h1, _, h3⟩ := runAddRefFrom_spec calls ⟨[], []⟩ refInv_init
  have hrun : runAddRefFrom ⟨[], []⟩ calls = runAddRef calls := rfl
  rw [hrun] at h1 h3
  refine ⟨fun st lb => rfl, ?_, ?_⟩
  · intro k1 k2 c1 c2 hg1 hg2 he1 he2
    rw [h3, List.get?_map, List.get?_map, hg1, hg2]
    simp only [Option.map_some']
    rw [he1, he2]
  · intro p hp
    have hmem : p.2 ∈ (runAddRef calls).2.all_refs.map Prod.snd :=
      List.mem_map_of_mem Prod.snd hp
    rw [h1] at hmem
    simp only [List.nil_append] at hmem
    have := mem_firstOccsAux _ _ hmem
    obtain ⟨c, _, hc⟩ := List.mem_map.mp this
    rw [← hc]
    exact nurl_ne_empty c.1

/-- Witness for C10_add_ref_empty_url: in a run with empty URLs at call
positions 0 and 2, both calls return the same index. -/
theorem C10_add_ref_empty_url_witness :
    (runAddRef [("", "A"), ("x", "B"), ("", "C")]).1.get? 0
      = (runAddRef [("", "A"), ("x", "B"), ("", "C")]).1.get? 2 :=
  (C10_add_ref_empty_url [("", "A"), ("x", "B"), ("", "C")]).2.1
    0 2 ("", "A") ("", "C") rfl rfl rfl rfl

/-! ## Properties of dedupe (for claim C2) -/

/-- First-occurrence-per-key filter: what the dedupe loop computes when no
cap is given. -/
def keepFirsts : List Item → List String → List Item
  | [], _ => []
  | it :: rest, seen =>
    if uniq_key it ∈ seen then keepFirsts rest seen
    else it :: keepFirsts rest (uniq_key it :: seen)

theorem dedupeLoop_none_eq (l : List Item) :
    ∀ (seen : List String) (out : List Item),
    dedupeLoop l seen out none = out ++ keepFirsts l seen := by
  induction l with
  | nil => intro seen out; simp [dedupeLoop, keepFirsts]
  | cons it rest ih =>
    intro seen out
    by_cases hk : uniq_key it ∈ seen
    · simp [dedupeLoop, keepFirsts, hk, ih]
    · simp [dedupeLoop, keepFirsts, hk, ih, List.append_assoc]

theorem mem_keepFirsts {x : Item} :
    ∀ (l : List Item) (seen : List String), x ∈ keepFirsts l seen → x ∈ l := by
  intro l
  induction l with
  | nil => intro seen h; simp [keepFirsts] at h
  | cons it rest ih =>
    intro seen h
    by_cases hk : uniq_key it ∈ seen
    · simp only [keepFirsts, if_pos hk] at h
      exact List.mem_cons_of_mem it (ih _ h)
    · simp only [keepFirsts, if_neg hk, List.mem_cons] at h
      rcases h with h | h
      · exact h ▸ List.mem_cons_self it rest
      · exact List.mem_cons_of_mem it (ih _ h)

theorem keepFirsts_key_not_seen {x : Item} :
    ∀ (l : List Item) (seen : List String),
    x ∈ keepFirsts l seen → uniq_key x ∉ seen := by
  intro l
  induction l with
  | nil => intro seen h; simp [keepFirsts] at h
  | cons it rest ih =>
    intro seen h
    by_cases hk : uniq_key it ∈ seen
    · simp only [keepFirsts, if_pos hk] at h
      exact ih _ h
    · simp only [keepFirsts, if_neg hk, List.mem_cons] at h
      rcases h with h | h
      · exact h ▸ hk
      · intro hmem
        exact ih _ h (List.mem_cons_of_mem _ hmem)

theorem countP_keepFirsts (l : List Item) :
    ∀ (seen : List String) (k : String), k ∉ seen →
    (keepFirsts l seen).countP (fun x => uniq_key x = k)
      = if ∃ x ∈ l, uniq_key x = k then 1 else 0 := by
  induction l with
  | nil => intro seen k _; simp [keepFirsts]
  | cons it rest ih =>
    intro seen k hk
    by_cases hin : uniq_key it ∈ seen
    · have hne : uniq_key it ≠ k := fun hc => hk (hc ▸ hin)
      have hkeep : keepFirsts (it :: rest) seen = keepFirsts rest seen := by
        simp [keepFirsts, hin]
      rw [hkeep, ih seen k hk]
      by_cases hex : ∃ x ∈ rest, uniq_key x = k
      · rw [if_pos hex, if_pos]
        obtain ⟨x, hx, hxk⟩ := hex
        exact ⟨x, List.mem_cons_of_mem it hx, hxk⟩
      · rw [if_neg hex, if_neg]
        rintro ⟨x, hx, hxk⟩
        rcases List.mem_cons.mp hx with hxit | hx2
        · exact hne (hxit ▸ hxk)
        · exact hex ⟨x, hx2, hxk⟩
    · have hkeep : keepFirsts (it :: rest) seen
          = it :: keepFirsts rest (uniq_key it :: seen) := by
        simp [keepFirsts, hin]
      by_cases hko : uniq_key it = k
      · -- head has the key: head is kept, no later kept item repeats k
        have hcount0 :
            (keepFirsts rest (uniq_key it :: seen)).countP
              (fun x => uniq_key x = k) = 0 := by
          rw [List.countP_eq_zero]
          intro x hx
          have hnotin := keepFirsts_key_not_seen rest (uniq_key it :: seen) hx
          simp only [List.mem_cons, not_or] at hnotin
          simp only [decide_eq_true_eq]
          intro hc
          exact hnotin.1 (hc.trans hko.symm)
        rw [hkeep, List.countP_cons_of_pos _ _ (by simp [hko]), hcount0,
          if_pos ⟨it, List.mem_cons_self it rest, hko⟩]
      · have hk2 : k ∉ uniq_key it :: seen := by
          simp only [List.mem_cons, not_or]
          exact ⟨fun hc => hko hc.symm, hk⟩
        rw [hkeep, List.countP_cons_of_neg _ _ (by simp [hko]), ih _ k hk2]
        by_cases hex : ∃ x ∈ rest, uniq_key x = k
        · rw [if_pos hex, if_pos]
          obtain ⟨x, hx, hxk⟩ := hex
          exact ⟨x, List.mem_cons_of_mem it hx, hxk⟩
        · rw [if_neg hex, if_neg]
          rintro ⟨x, hx, hxk⟩
          rcases List.mem_cons.mp hx with hxit | hx2
          · exact hko (hxit ▸ hxk)
          · exact hex ⟨x, hx2, hxk⟩

theorem keepFirsts_max_date (l : List Item)
    (hsorted : l.Pairwise (fun a b => b.date.getD 0 ≤ a.date.getD 0)) :
    ∀ (seen : List String) (x : Item), x ∈ keepFirsts l seen →
    ∀ y ∈ l, uniq_key y = uniq_key x →
      y.date.getD 0 ≤ x.date.getD 0 := by
  induction l with
  | nil => intro seen x hx; simp [keepFirsts] at hx
  | cons it rest ih =>
    intro seen x hx y hy hkey
    have htail : rest.Pairwise (fun a b => b.date.getD 0 ≤ a.date.getD 0) :=
      (List.pairwise_cons.mp hsorted).2
    by_cases hin : uniq_key it ∈ seen
    · simp only [keepFirsts, if_pos hin] at hx
      rcases List.mem_cons.mp hy with hyit | hy2
      · have hnotin := keepFirsts_key_not_seen rest seen hx
        rw [hyit] at hkey
        have hmem : uniq_key x ∈ seen := by rw [← hkey]; exact hin
        exact absurd hmem hnotin
      · exact ih htail seen x hx y hy2 hkey
    · simp only [keepFirsts, if_neg hin, List.mem_cons] at hx
      rcases hx with hxit | hx2
      · rcases List.mem_cons.mp hy with hyit | hy2
        · rw [hyit, hxit]
        · rw [hxit]
          exact (List.pairwise_cons.mp hsorted).1 y hy2
      · rcases List.mem_cons.mp hy with hyit | hy2
        · have hnotin := keepFirsts_key_not_seen rest (uniq_key it :: seen) hx2
          rw [hyit] at hkey
          have hmem : uniq_key x ∈ uniq_key it :: seen := by
            rw [← hkey]
            exact List.mem_cons_self _ _
          exact absurd hmem hnotin
        · exact ih htail _ x hx2 y hy2 hkey

theorem dedupeLoop_length_le (l : List Item) :
    ∀ (seen : List String) (out : List Item) (m : Nat), out.length < m →
    (dedupeLoop l seen out (some m)).length ≤ m := by
  induction l with
  | nil => intro seen out m h; exact Nat.le_of_lt h
  | cons it rest ih =>
    intro seen out m h
    by_cases hk : uniq_key it ∈ seen
    · simp only [dedupeLoop, if_pos hk]
      exact ih seen out m h
    · simp only [dedupeLoop, if_neg hk]
      by_cases hbreak : m ≠ 0 ∧ m ≤ (out ++ [it]).length
      · rw [if_pos hbreak]
        simp only [List.length_append, List.length_cons, List.length_nil]
        omega
      · rw [if_neg hbreak]
        refine ih _ _ m ?_
        simp only [List.length_append, List.length_cons, List.length_nil]
        simp only [List.length_append, List.length_cons, List.length_nil,
          not_and, not_le] at hbreak
        have hm : m ≠ 0 := by omega
        have := hbreak hm
        omega

/-- Sortedness of the dedupe pre-sort: output is pairwise
date-descending. -/
theorem sortByDateDesc_pairwise (l : List Item) :
    (sortByDateDesc l).Pairwise
      (fun a b => b.date.getD 0 ≤ a.date.getD 0) := by
  haveI : IsTotal Item (fun a b => b.date.getD 0 ≤ a.date.getD 0) :=
    ⟨fun a b => le_total _ _⟩
  haveI : IsTrans Item (fun a b => b.date.getD 0 ≤ a.date.getD 0) :=
    ⟨fun _ _ _ h1 h2 => le_trans h2 h1⟩
  exact List.sorted_insertionSort _ l

/-- The dedupe pre-sort is a permutation of the input. -/
theorem sortByDateDesc_perm (l : List Item) :
    (sortByDateDesc l).Perm l :=
  List.perm_insertionSort _ l

/-- C2 counterexample: the dedup key is the sha1 of the concatenation
title + link, so the distinct pairs ("ab", "c") and ("a", "bc") share one
key.  In the list below the two entries with (title, link) = ("ab", "c")
are collapsed together with the ("a", "bc") entry, whose timestamp is
newest: the deduplicated output contains NO entry with ("ab", "c"),
falsifying "contains exactly one entry with that (title, link)". -/
theorem C2_counterexample :
    (dedupe [⟨"ab", "", "c", some 5, "", ""⟩, ⟨"a", "", "bc", some 9, "", ""⟩,
             ⟨"ab", "", "c", some 3, "", ""⟩] none).countP
        (fun it => it.title = "ab" ∧ it.link = "c") = 0 ∧
    ([(⟨"ab", "", "c", some 5, "", ""⟩ : Item), ⟨"a", "", "bc", some 9, "", ""⟩,
      ⟨"ab", "", "c", some 3, "", ""⟩].countP
        (fun it => it.title = "ab" ∧ it.link = "c") = 2) ∧
    (∀ it ∈ [(⟨"ab", "", "c", some 5, "", ""⟩ : Item),
             ⟨"a", "", "bc", some 9, "", ""⟩,
             ⟨"ab", "", "c", some 3, "", ""⟩], it.date.isSome) := by
  refine ⟨by decide, by decide, by decide⟩

/-- C2 (amended): for a list of items with non-null timestamps containing
two entries with identical (title, link), provided no OTHER (title, link)
pair in the list concatenates to the same dedup-key string, the uncapped
dedupe output contains exactly one entry with that (title, link), its
timestamp is maximal among all such entries, and for every positive cap m
the output of dedupe with cap m has at most m entries. -/
theorem C2_dedupe (l : List Item) (T L : String)
    (hdates : ∀ it ∈ l, it.date.isSome)
    (hdup : 2 ≤ l.countP (fun it => it.title = T ∧ it.link = L))
    (hnocoll : ∀ it ∈ l, uniq_key it = T ++ L →
      it.title = T ∧ it.link = L) :
    (dedupe l none).countP (fun it => it.title = T ∧ it.link = L) = 1 ∧
    (∀ it ∈ dedupe l none, it.title = T → it.link = L →
      ∀ jt ∈ l, jt.title = T → jt.link = L →
        jt.date.getD 0 ≤ it.date.getD 0) ∧
    (∀ m : Nat, 0 < m → (dedupe l (some m)).length ≤ m) := by
  have hkey : ∀ it : Item, it.title = T → it.link = L →
      uniq_key it = T ++ L := by
    intro it h1 h2
    simp [uniq_key, h1, h2]
  have hperm : (sortByDateDesc l).Perm l := sortByDateDesc_perm l
  have heq : dedupe l none = keepFirsts (sortByDateDesc l) [] := by
    unfold dedupe
    rw [dedupeLoop_none_eq]
    rfl
  have hsub : ∀ x ∈ dedupe l none, x ∈ l := by
    intro x hx
    rw [heq] at hx
    exact hperm.mem_iff.mp (mem_keepFirsts _ _ hx)
  refine ⟨?_, ?_, ?_⟩
  · -- exactly one entry with the pair (T, L)
    have hcnt : (dedupe l none).countP (fun it => it.title = T ∧ it.link = L)
        = (dedupe l none).countP (fun it => uniq_key it = T ++ L) := by
      refine List.countP_congr ?_
      intro it hit
      have hmem := hsub it hit
      simp only [decide_eq_true_eq]
      exact ⟨fun h => hkey it h.1 h.2, fun h => hnocoll it hmem h⟩
    have hex : ∃ x ∈ sortByDateDesc l, uniq_key x = T ++ L := by
      have hpos : 0 < l.countP (fun it => it.title = T ∧ it.link = L) := by
        omega
      obtain ⟨x, hx, hpx⟩ := List.countP_pos_iff.mp hpos
      simp only [decide_eq_true_eq] at hpx
      exact ⟨x, hperm.mem_iff.mpr hx, hkey x hpx.1 hpx.2⟩
    rw [hcnt, heq, countP_keepFirsts _ [] (T ++ L) (by simp), if_pos hex]
  · -- the survivor carries the maximal timestamp of its pair
    intro it hit h1 h2 jt hjt hj1 hj2
    have hit2 : it ∈ keepFirsts (sortByDateDesc l) [] := heq ▸ hit
    have hjt2 : jt ∈ sortByDateDesc l := hperm.mem_iff.mpr hjt
    have hkeys : uniq_key jt = uniq_key it := by
      rw [hkey jt hj1 hj2, hkey it h1 h2]
    exact keepFirsts_max_date (sortByDateDesc l)
      (sortByDateDesc_pairwise l) [] it hit2 jt hjt2 hkeys
  · -- positive caps bound the output length
    intro m hm
    unfold dedupe
    exact dedupeLoop_length_le _ [] [] m (by simpa using hm)

/-- Witness for C2_dedupe at a concrete list: two duplicates of
("t", "l") (dates 5 and 9) plus an unrelated item; the deduplicated output
keeps exactly one ("t", "l") entry. -/
theorem C2_dedupe_witness :
    (dedupe [⟨"t", "", "l", some 5, "", ""⟩, ⟨"t", "", "l", some 9, "", ""⟩,
             ⟨"x", "", "y", some 7, "", ""⟩] none).countP
        (fun it => it.title = "t" ∧ it.link = "l") = 1 :=
  (C2_dedupe [⟨"t", "", "l", some 5, "", ""⟩, ⟨"t", "", "l", some 9, "", ""⟩,
              ⟨"x", "", "y", some 7, "", ""⟩] "t" "l"
    (by decide) (by decide) (by decide)).1

/-! ## Claim C1: minimum-count fallback -/

/-- Every item of a dedupeLoop result comes from the accumulator or the
input list. -/
theorem mem_dedupeLoop {x : Item} :
    ∀ (l : List Item) (seen : List String) (out : List Item)
      (maxn : Option Nat),
    x ∈ dedupeLoop l seen out maxn → x ∈ out ∨ x ∈ l := by
  intro l
  induction l with
  | nil =>
    intro seen out maxn h
    exact Or.inl (by simpa [dedupeLoop] using h)
  | cons it rest ih =>
    intro seen out maxn h
    by_cases hk : uniq_key it ∈ seen
    · rcases ih seen out maxn (by simpa [dedupeLoop, hk] using h) with h1 | h1
      · exact Or.inl h1
      · exact Or.inr (List.mem_cons_of_mem _ h1)
    · have hout : x ∈ out ++ [it] → x ∈ out ∨ x ∈ it :: rest := by
        intro hx
        rcases List.mem_append.mp hx with hx | hx
        · exact Or.inl hx
        · exact Or.inr (by simpa using Or.inl (List.mem_singleton.mp hx))
      cases maxn with
      | none =>
        simp only [dedupeLoop, if_neg hk] at h
        rcases ih _ _ _ h with h1 | h1
        · exact hout h1
        · exact Or.inr (List.mem_cons_of_mem _ h1)
      | some m =>
        simp only [dedupeLoop, if_neg hk] at h
        by_cases hbreak : m ≠ 0 ∧ m ≤ (out ++ [it]).length
        · rw [if_pos hbreak] at h
          exact hout h
        · rw [if_neg hbreak] at h
          rcases ih _ _ _ h with h1 | h1
          · exact hout h1
          · exact Or.inr (List.mem_cons_of_mem _ h1)

/-- Every deduplicated item comes from the input list. -/
theorem mem_dedupe {x : Item} {l : List Item} {maxn : Option Nat}
    (h : x ∈ dedupe l maxn) : x ∈ l := by
  rcases mem_dedupeLoop (sortByDateDesc l) [] [] maxn h with h1 | h1
  · simp at h1
  · exact (sortByDateDesc_perm l).mem_iff.mp h1

/-- Date parser table for the C1 scenario (dateutil resolves the single
timestamp string "D15" to day 15 of the window's timeline). -/
def c1_dtp : String → Option Int := fun s => if s = "D15" then some 15 else none

/-- One in-window, genre-related entry served by the secondary site
edm.com in the C1 scenario. -/
def c1_secondary_entry : Entry :=
  ⟨some "https://edm.com/a", some "Nexus dnb mix", some "", none,
   some "D15", none, none, none, none⟩

/-- Fetch table for the C1 scenario: the 28-day Google News query for
edm.com returns one entry; every other fetch fails. -/
def c1_fetch : String → Option (List Entry) :=
  fun u => if u = google_news_feed "edm.com" 28 then some [c1_secondary_entry]
           else none

/-- The single primary world item of the C1 scenario. -/
def c1_primary_item : Item :=
  ⟨"Alpha dnb news", "", "https://ukf.com/x", some 12, "UKF", "world"⟩

/-- The item harvest_sites builds from c1_secondary_entry. -/
def c1_secondary_item : Item :=
  ⟨"Nexus dnb mix", "", "https://edm.com/a", some 15, "EDM.com", "world"⟩

/-- C1 counterexample: the primary sources yield one world item (fewer
than MIN_WORLD = 5) while harvest_sites over SECONDARY_SITES with the
28-day lookback would deliver an in-window item with a fresh dedup key —
yet the pipeline's world selection is just the primary item: it contains
no secondary item and stays below the minimum, because the selection
(dedupe then pick, source lines 1286-1292) never invokes harvest_sites.
No top-up exists in the code. -/
theorem C1_counterexample :
    worldSelection [c1_primary_item] = [c1_primary_item] ∧
    [c1_primary_item].length < MIN_WORLD ∧
    harvest_sites c1_dtp c1_fetch SECONDARY_SITES 10 20
      = .ok [c1_secondary_item] ∧
    uniq_key c1_secondary_item ≠ uniq_key c1_primary_item ∧
    c1_secondary_item ∉ worldSelection [c1_primary_item] := by
  refine ⟨by decide, by decide, rfl, by decide, by decide⟩

/-- C1 (amended): the selector never tops up a short section: the world
selection equals the first MIN_WORLD items of dedupe(primary, 20) — the
deduplicated primary list unchanged whenever it is shorter than the
minimum — and every selected item comes from the primary list alone
(harvest_sites and SECONDARY_SITES are defined in the source but never
invoked by the pipeline). -/
theorem C1_no_topup (primary : List Item) :
    worldSelection primary = (dedupe primary (some 20)).take MIN_WORLD ∧
    ((dedupe primary (some 20)).length < MIN_WORLD →
      worldSelection primary = dedupe primary (some 20)) ∧
    ∀ it ∈ worldSelection primary, it ∈ primary := by
  refine ⟨?_, ?_, ?_⟩
  · unfold worldSelection pick
    by_cases h : MIN_WORLD ≤ (dedupe primary (some 20)).length
    · rw [if_pos h]
    · rw [if_neg h]
      rw [List.take_of_length_le (by omega)]
  · intro hshort
    unfold worldSelection pick
    rw [if_neg (by omega)]
  · intro it hit
    unfold worldSelection pick at hit
    by_cases h : MIN_WORLD ≤ (dedupe primary (some 20)).length
    · rw [if_pos h] at hit
      exact mem_dedupe (List.mem_of_mem_take hit)
    · rw [if_neg h] at hit
      exact mem_dedupe hit

/-- Witness for C1_no_topup at the concrete one-item primary list: the
short selection is returned unchanged and comes from the primary list. -/
theorem C1_no_topup_witness :
    worldSelection [c1_primary_item] = dedupe [c1_primary_item] (some 20) ∧
    c1_primary_item ∈ [c1_primary_item] :=
  ⟨(C1_no_topup [c1_primary_item]).2.1 (by decide),
   (C1_no_topup [c1_primary_item]).2.2 c1_primary_item (by decide)⟩

/-! ## Claim C7: items without a resolvable timestamp never enter a
windowed section, and claim C3: the malformed published_parsed tuple -/

theorem harvestEntries_dated (dtp : String → Option Int) (label : String)
    (s e : Int) :
    ∀ (entries : List Entry) (items : List Item),
    harvestEntries dtp label s e entries = .ok items →
    ∀ it ∈ items, it.date.isSome := by
  intro entries
  induction entries with
  | nil =>
    intro items h it hit
    simp only [harvestEntries] at h
    cases h
    simp at hit
  | cons en rest ih =>
    intro items h it hit
    simp only [harvestEntries, bind, Except.bind] at h
    cases hen : entry_to_item dtp en label with
    | error msg => simp [hen] at h
    | ok itm =>
      cases htl : harvestEntries dtp label s e rest with
      | error msg => simp [hen, htl] at h
      | ok tl =>
        have htl2 := ih tl htl
        cases hd : itm.date with
        | none =>
          simp only [hen, htl, hd, pure, Except.pure, Except.ok.injEq] at h
          exact htl2 it (h ▸ hit)
        | some d =>
          cases hw : within d s e with
          | false =>
            simp only [hen, htl, hd, hw, Bool.false_eq_true,
              not_false_eq_true, if_true, pure, Except.pure,
              Except.ok.injEq] at h
            exact htl2 it (h ▸ hit)
          | true =>
            cases hr : is_dnb_related itm.title itm.summary itm.link with
            | false =>
              simp only [hen, htl, hd, hw, hr, Bool.false_eq_true,
                not_false_eq_true, not_true_eq_false, if_true, if_false,
                pure, Except.pure, Except.ok.injEq] at h
              exact htl2 it (h ▸ hit)
            | true =>
              simp only [hen, htl, hd, hw, hr, not_true_eq_false,
                if_false, pure, Except.pure, Except.ok.injEq] at h
              rw [← h] at hit
              rcases List.mem_cons.mp hit with hit1 | hit2
              · rw [hit1]
                simp [hd]
              · exact htl2 it hit2

theorem harvest_sites_dated (dtp : String → Option Int)
    (fetchf : String → Option (List Entry)) (s e : Int) :
    ∀ (sites : List (String × String)) (items : List Item),
    harvest_sites dtp fetchf sites s e = .ok items →
    ∀ it ∈ items, it.date.isSome := by
  intro sites
  induction sites with
  | nil =>
    intro items h it hit
    simp only [harvest_sites] at h
    cases h
    simp at hit
  | cons site rest ih =>
    intro items h it hit
    obtain ⟨label, domain⟩ := site
    simp only [harvest_sites, bind, Except.bind] at h
    cases htl : harvest_sites dtp fetchf rest s e with
    | error msg => simp [htl] at h
    | ok tl =>
      have htl2 := ih tl htl
      cases hf : fetchf (google_news_feed domain 28) with
      | none =>
        simp only [htl, hf, pure, Except.pure, Except.ok.injEq] at h
        exact htl2 it (h ▸ hit)
      | some entries =>
        cases entries with
        | nil =>
          simp only [htl, hf, pure, Except.pure, Except.ok.injEq] at h
          exact htl2 it (h ▸ hit)
        | cons e0 erest =>
          cases hh : harvestEntries dtp label s e (e0 :: erest) with
          | error msg => simp [htl, hf, hh] at h
          | ok hd =>
            simp only [htl, hf, hh, pure, Except.pure, Except.ok.injEq] at h
            rw [← h] at hit
            rcases List.mem_append.mp hit with hit1 | hit2
            · exact harvestEntries_dated dtp label s e _ hd hh it hit1
            · exact htl2 it hit2

theorem processEntry_dated (dtp : String → Option Int) (f : FeedCfg)
    (pm ps : Int) (en : Entry)
    (w c r : List Item)
    (h : processEntry dtp f pm ps en = .ok (w, c, r)) :
    ∀ it ∈ w ++ c ++ r, it.date.isSome := by
  intro it hit
  simp only [processEntry, bind, Except.bind] at h
  cases hen : entry_to_item dtp en f.source_label with
  | error msg => simp [hen] at h
  | ok itm =>
    cases hd : itm.date with
    | none =>
      simp only [hen, hd, pure, Except.pure, Except.ok.injEq,
        Prod.mk.injEq] at h
      obtain ⟨hw2, hc2, hr2⟩ := h
      rw [← hw2, ← hc2, ← hr2] at hit
      simp at hit
    | some d =>
      -- every nonempty branch returns a singleton holding itm (possibly
      -- with its section relabelled, which keeps the date some d)
      by_cases hrd : f.sect = "reddit"
      · cases hw : within d pm ps with
        | true =>
          simp only [hen, hd, hrd, hw, if_true, if_false,
            not_true_eq_false, not_false_eq_true, Bool.false_eq_true, pure,
            Except.pure, Except.ok.injEq] at h
          rw [Prod.mk.injEq, Prod.mk.injEq] at h
          obtain ⟨rfl, rfl, rfl⟩ := h
          simp only [List.nil_append] at hit
          rcases List.mem_singleton.mp hit with rfl
          simp [hd]
        | false =>
          simp only [hen, hd, hrd, hw, if_true, if_false,
            not_true_eq_false, not_false_eq_true, Bool.false_eq_true, pure,
            Except.pure, Except.ok.injEq] at h
          rw [Prod.mk.injEq, Prod.mk.injEq] at h
          obtain ⟨rfl, rfl, rfl⟩ := h
          simp at hit
      · by_cases hcz : classify_section itm.link = "czsk"
        · cases hgen : is_czsk_dnb itm.title itm.summary with
          | false =>
            simp only [hen, hd, hrd, hcz, hgen, if_true, if_false,
              not_true_eq_false, not_false_eq_true, Bool.false_eq_true,
              pure, Except.pure, Except.ok.injEq] at h
            rw [Prod.mk.injEq, Prod.mk.injEq] at h
            obtain ⟨rfl, rfl, rfl⟩ := h
            simp at hit
          | true =>
            cases hw : within d pm ps with
            | true =>
              simp only [hen, hd, hrd, hcz, hgen, hw, if_true, if_false,
                not_true_eq_false, not_false_eq_true, Bool.false_eq_true,
                pure, Except.pure, Except.ok.injEq] at h
              rw [Prod.mk.injEq, Prod.mk.injEq] at h
              obtain ⟨rfl, rfl, rfl⟩ := h
              simp only [List.nil_append, List.append_nil] at hit
              rcases List.mem_singleton.mp hit with rfl
              simp [hd]
            | false =>
              simp only [hen, hd, hrd, hcz, hgen, hw, if_true, if_false,
                not_true_eq_false, not_false_eq_true, Bool.false_eq_true,
                pure, Except.pure, Except.ok.injEq] at h
              rw [Prod.mk.injEq, Prod.mk.injEq] at h
              obtain ⟨rfl, rfl, rfl⟩ := h
              simp at hit
        · cases hgen : is_dnb_related itm.title itm.summary itm.link with
          | false =>
            simp only [hen, hd, hrd, hcz, hgen, if_true, if_false,
              not_true_eq_false, not_false_eq_true, Bool.false_eq_true,
              pure, Except.pure, Except.ok.injEq] at h
            rw [Prod.mk.injEq, Prod.mk.injEq] at h
            obtain ⟨rfl, rfl, rfl⟩ := h
            simp at hit
          | true =>
            cases hw : within d pm ps with
            | true =>
              simp only [hen, hd, hrd, hcz, hgen, hw, if_true, if_false,
                not_true_eq_false, not_false_eq_true, Bool.false_eq_true,
                pure, Except.pure, Except.ok.injEq] at h
              rw [Prod.mk.injEq, Prod.mk.injEq] at h
              obtain ⟨rfl, rfl, rfl⟩ := h
              simp only [List.append_nil, List.nil_append] at hit
              rcases List.mem_singleton.mp hit with rfl
              simp [hd]
            | false =>
              simp only [hen, hd, hrd, hcz, hgen, hw, if_true, if_false,
                not_true_eq_false, not_false_eq_true, Bool.false_eq_true,
                pure, Except.pure, Except.ok.injEq] at h
              rw [Prod.mk.injEq, Prod.mk.injEq] at h
              obtain ⟨rfl, rfl, rfl⟩ := h
              simp at hit

theorem processEntryList_dated (dtp : String → Option Int) (f : FeedCfg)
    (pm ps : Int) :
    ∀ (entries : List Entry) (t : List Item × List Item × List Item),
    processEntryList dtp f pm ps entries = .ok t →
    ∀ it ∈ t.1 ++ t.2.1 ++ t.2.2, it.date.isSome := by
  intro entries
  induction entries with
  | nil =>
    intro t h it hit
    simp only [processEntryList] at h
    cases h
    simp at hit
  | cons en rest ih =>
    intro t h it hit
    simp only [processEntryList, bind, Except.bind] at h
    cases hh : processEntry dtp f pm ps en with
    | error msg => simp [hh] at h
    | ok hd =>
      cases ht : processEntryList dtp f pm ps rest with
      | error msg => simp [hh, ht] at h
      | ok tl =>
        simp only [hh, ht, pure, Except.pure, Except.ok.injEq] at h
        subst h
        have hdd := processEntry_dated dtp f pm ps en hd.1 hd.2.1 hd.2.2
          (by rw [hh])
        have htt := ih tl ht
        rcases List.mem_append.mp hit with h1 | h1
        · rcases List.mem_append.mp h1 with h2 | h2
          · rcases List.mem_append.mp h2 with h3 | h3
            · exact hdd it (by simp [h3])
            · exact htt it (by simp [h3])
          · rcases List.mem_append.mp h2 with h3 | h3
            · exact hdd it (by simp [h3])
            · exact htt it (by simp [h3])
        · rcases List.mem_append.mp h1 with h3 | h3
          · exact hdd it (by simp [h3])
          · exact htt it (by simp [h3])

theorem process_feeds_dated (dtp : String → Option Int)
    (fetchf : String → Option (List Entry)) (pm ps : Int) :
    ∀ (feeds : List FeedCfg) (t : List Item × List Item × List Item),
    process_feeds dtp fetchf pm ps feeds = .ok t →
    ∀ it ∈ t.1 ++ t.2.1 ++ t.2.2, it.date.isSome := by
  intro feeds
  induction feeds with
  | nil =>
    intro t h it hit
    simp only [process_feeds] at h
    cases h
    simp at hit
  | cons f rest ih =>
    intro t h it hit
    simp only [process_feeds, bind, Except.bind] at h
    cases ht : process_feeds dtp fetchf pm ps rest with
    | error msg => simp [ht] at h
    | ok tl =>
      have htt := ih tl ht
      cases hf : fetchf f.url with
      | none =>
        simp only [ht, hf, pure, Except.pure, Except.ok.injEq] at h
        subst h
        exact htt it hit
      | some entries =>
        cases entries with
        | nil =>
          simp only [ht, hf, pure, Except.pure, Except.ok.injEq] at h
          subst h
          exact htt it hit
        | cons e0 erest =>
          cases hh : processEntryList dtp f pm ps (e0 :: erest) with
          | error msg => simp [ht, hf, hh] at h
          | ok hd =>
            simp only [ht, hf, hh, pure, Except.pure, Except.ok.injEq] at h
            subst h
            have hdd := processEntryList_dated dtp f pm ps (e0 :: erest)
              hd hh
            rcases List.mem_append.mp hit with h1 | h1
            · rcases List.mem_append.mp h1 with h2 | h2
              · rcases List.mem_append.mp h2 with h3 | h3
                · exact hdd it (by simp [h3])
                · exact htt it (by simp [h3])
              · rcases List.mem_append.mp h2 with h3 | h3
                · exact hdd it (by simp [h3])
                · exact htt it (by simp [h3])
            · rcases List.mem_append.mp h1 with h3 | h3
              · exact hdd it (by simp [h3])
              · exact htt it (by simp [h3])

/-- Membership through pick. -/
theorem mem_pick {x : Item} {l : List Item} {n : Nat} (h : x ∈ pick l n) :
    x ∈ l := by
  unfold pick at h
  by_cases hc : n ≤ l.length
  · rw [if_pos hc] at h
    exact List.mem_of_mem_take h
  · rw [if_neg hc] at h
    exact h

/-- C7: items whose timestamp cannot be resolved (get_best_date yields
None) are excluded from every week-windowed collection: the world,
domestic and reddit lists of the FEEDS loop, the secondary-site harvest,
and consequently the per-section selections built from them all contain
only items with a resolved (non-null) timestamp. -/
theorem C7_null_timestamp_excluded (dtp : String → Option Int)
    (fetchf : String → Option (List Entry)) (pm ps : Int)
    (feeds : List FeedCfg) (sites : List (String × String)) (s e : Int)
    (world czsk reddit harvested : List Item)
    (hrun : process_feeds dtp fetchf pm ps feeds = .ok (world, czsk, reddit))
    (hharv : harvest_sites dtp fetchf sites s e = .ok harvested) :
    (∀ it ∈ world, it.date.isSome) ∧
    (∀ it ∈ czsk, it.date.isSome) ∧
    (∀ it ∈ reddit, it.date.isSome) ∧
    (∀ it ∈ harvested, it.date.isSome) ∧
    (∀ it ∈ worldSelection world, it.date.isSome) ∧
    (∀ it ∈ czskSelection czsk, it.date.isSome) ∧
    (∀ it ∈ redditSelection reddit, it.date.isSome) := by
  have hall := process_feeds_dated dtp fetchf pm ps feeds
    (world, czsk, reddit) hrun
  have hw : ∀ it ∈ world, it.date.isSome := fun it hit =>
    hall it (by simp [hit])
  have hc : ∀ it ∈ czsk, it.date.isSome := fun it hit =>
    hall it (by simp [hit])
  have hr : ∀ it ∈ reddit, it.date.isSome := fun it hit =>
    hall it (by simp [hit])
  refine ⟨hw, hc, hr, harvest_sites_dated dtp fetchf s e sites harvested
    hharv, ?_, ?_, ?_⟩
  · intro it hit
    exact hw it (mem_dedupe (mem_pick hit))
  · intro it hit
    exact hc it (mem_dedupe (mem_pick hit))
  · intro it hit
    exact hr it (mem_dedupe (mem_pick hit))

/-- Feed entry for the C7 witness scenario. -/
def c7_entry : Entry :=
  ⟨some "https://ukf.com/y", some "Jungle dnb set", none, none,
   some "D15", none, none, none, none⟩

/-- Feed registry record for the C7 witness scenario. -/
def c7_feed : FeedCfg := ⟨"GoogleNews:UKF", "rss", "world", "F1", "UKF"⟩

/-- Fetch table for the C7 witness scenario. -/
def c7_fetch : String → Option (List Entry) :=
  fun u => if u = "F1" then some [c7_entry] else none

/-- The world item the C7 witness run produces. -/
def c7_item : Item :=
  ⟨"Jungle dnb set", "", "https://ukf.com/y", some 15, "UKF", "world"⟩

/-- Witness for C7_null_timestamp_excluded on a concrete one-feed run. -/
theorem C7_null_timestamp_excluded_witness : c7_item.date.isSome :=
  (C7_null_timestamp_excluded c1_dtp c7_fetch 10 20 [c7_feed]
    SECONDARY_SITES 10 20 [c7_item] [] [] [] rfl rfl).1 c7_item (by decide)

/-! ## Claim C3: per-source exceptions -/

/-- Date parser for the C3 failing input: dateutil raises on the garbage
published string (modelled as none, which get_best_date catches). -/
def c3_dtp : String → Option Int := fun _ => none

/-- The C3 failing input: a feed entry whose published string fails to
parse and whose published_parsed tuple is malformed (month 13, day 45 —
datetime() raises ValueError on it, outside any try block). -/
def c3_entry : Entry :=
  ⟨some "https://ukf.com/z", some "Dnb story", some "", none,
   some "not a date", none, none, some [2023, 13, 45, 0, 0, 0], none⟩

/-- Feed registry record for the C3 failing run. -/
def c3_feed : FeedCfg := ⟨"GoogleNews:UKF", "rss", "world", "F1", "UKF"⟩

/-- Fetch table for the C3 failing run: the feed serves the malformed
entry. -/
def c3_fetch : String → Option (List Entry) :=
  fun u => if u = "F1" then some [c3_entry] else none

/-- C3 code bug: get_best_date catches exceptions of the string-date
branch but calls datetime(*t[:6]) on published_parsed OUTSIDE any try
block (source lines 120-122), and the FEEDS loop (source lines 1260-1284)
has no exception handler around entry_to_item either: on the malformed
entry the exception escapes get_best_date, entry_to_item, and the whole
feed-processing run — the run does not complete, contradicting the
"any per-source exception is caught, never fatal" policy. -/
theorem C3_uncaught_published_parsed :
    get_best_date c3_dtp c3_entry
      = .error "datetime() raised on malformed published_parsed" ∧
    entry_to_item c3_dtp c3_entry "UKF"
      = .error "datetime() raised on malformed published_parsed" ∧
    process_feeds c3_dtp c3_fetch 10 20 [c3_feed]
      = .error "datetime() raised on malformed published_parsed" :=
  ⟨rfl, rfl, rfl⟩

/-! ## Claim C5: link canonicalisation -/

/-- C5 counterexample: normalize_url strips only keys with the utm_
prefix (source line 160); the fbclid and gclid parameters pass through
unchanged, so a URL carrying fbclid does NOT normalize to the same
canonical form as the URL without it. -/
theorem C5_counterexample :
    normalize_url "https://x.com/p?fbclid=abc&id=5"
      = "https://x.com/p?fbclid=abc&id=5" ∧
    normalize_url "https://x.com/p?gclid=g1&id=5"
      = "https://x.com/p?gclid=g1&id=5" ∧
    normalize_url "https://x.com/p?fbclid=abc&id=5"
      ≠ normalize_url "https://x.com/p?id=5" ∧
    normalize_url "https://x.com/p?gclid=g1&id=5"
      ≠ normalize_url "https://x.com/p?id=5" := by
  refine ⟨by decide, by decide, by decide, by decide⟩

/-- C5 (amended): normalize_url strips exactly the query parameters whose
lowercased name starts with "utm_" and keeps every other parameter
(fbclid and gclid included) in place; in particular a URL with query
utm_source=x&id=5 normalizes to the same canonical form as the same URL
with query id=5. -/
theorem C5_normalize_url (q k : String) (vs : List String)
    (hmem : (k, vs) ∈ parse_qs q) :
    (pyStartsWith (strLower k) "utm_" = true → (k, vs) ∉ normalize_qs q) ∧
    (pyStartsWith (strLower k) "utm_" = false → (k, vs) ∈ normalize_qs q) ∧
    normalize_url "https://x.com/p?utm_source=x&id=5"
      = normalize_url "https://x.com/p?id=5" := by
  refine ⟨?_, ?_, by decide⟩
  · intro hpre hmem2
    rw [normalize_qs, List.mem_filter] at hmem2
    simp [hpre] at hmem2
  · intro hpre
    rw [normalize_qs, List.mem_filter]
    exact ⟨hmem, by simp [hpre]⟩

/-- Witness for C5_normalize_url: the id parameter of utm_source=x&id=5
survives normalisation. -/
theorem C5_normalize_url_witness :
    ("id", ["5"]) ∈ normalize_qs "utm_source=x&id=5" :=
  (C5_normalize_url "utm_source=x&id=5" "id" ["5"] (by decide)).2.1
    (by decide)

/-! ## Event extraction (source lines 520-908, 1030-1095)

JSON values decoded by json.loads are modelled by the inductive PyVal
(None, bool, int, string, list, dict with string keys, in insertion
order).  Python date/datetime objects never occur inside these values.
The recursive traversals of the source (ensure_date_value,
extract_location, the unwrap loop of build_event_from_raw) terminate on
finite JSON; they are modelled with an explicit fuel argument that bounds
the recursion depth, and every entry point supplies sizeOf of the value,
which dominates its nesting depth.  The `_visited` cycle guard of
ensure_date_value is vacuous on inductive (cycle-free) values. -/

inductive PyVal where
  | none
  | bool (b : Bool)
  | int (n : Int)
  | str (s : String)
  | list (items : List PyVal)
  | dict (fields : List (String × PyVal))

/-- Python truthiness of a JSON value. -/
def pyTruthy : PyVal → Bool
  | .none => false
  | .bool b => b
  | .int n => n ≠ 0
  | .str s => s ≠ ""
  | .list items => !items.isEmpty
  | .dict fields => !fields.isEmpty

/-- Dict access (first binding of the key; Python dict keys are unique). -/
def dictGet (fields : List (String × PyVal)) (k : String) : Option PyVal :=
  fields.lookup k

/-- Model of obj.get(key): None for a missing key or a non-dict. -/
def pyGet (v : PyVal) (k : String) : PyVal :=
  match v with
  | .dict fields => (dictGet fields k).getD .none
  | _ => .none

/-- Model of `key in obj` for dicts. -/
def pyHasKey (v : PyVal) (k : String) : Bool :=
  match v with
  | .dict fields => (dictGet fields k).isSome
  | _ => false

/-- Python `a or b` on JSON values. -/
def pyOrV (a b : PyVal) : PyVal := if pyTruthy a then a else b

/-- Python `a or b` on strings. -/
def pyOrStr (a b : String) : String := if a ≠ "" then a else b

/-- Model of Python str() restricted to the scalar values the program can
feed it; container reprs are not modelled (unreachable in the claims). -/
def pyStr : PyVal → String
  | .str s => s
  | .int n => toString n
  | .bool b => if b then "True" else "False"
  | .none => "None"
  | .list _ => "<list>"
  | .dict _ => "<dict>"

/-- Digit-string parser. -/
def parseDigits : List Char → Option Nat
  | [] => Option.none
  | ds =>
    if ds.all (fun c => '0' ≤ c ∧ c ≤ '9') then
      some (ds.foldl (fun acc c => acc * 10 + (c.toNat - 48)) 0)
    else Option.none

/-- Model of Python int(str): optional sign, all digits. -/
def parseIntStr (s : String) : Option Int :=
  match s.data with
  | '-' :: ds => (parseDigits ds).map (fun n => -(n : Int))
  | '+' :: ds => (parseDigits ds).map (fun n => (n : Int))
  | ds => (parseDigits ds).map (fun n => (n : Int))

/-- Shared datetime-constructor validity check and encoding (see
mkDatetimeUTC). -/
def mkValidDT (y m d h mi s : Int) : Option Int :=
  if 1 ≤ y ∧ y ≤ 9999 ∧ 1 ≤ m ∧ m ≤ 12 ∧ 1 ≤ d ∧ d ≤ daysInMonth y m ∧
     0 ≤ h ∧ h ≤ 23 ∧ 0 ≤ mi ∧ mi ≤ 59 ∧ 0 ≤ s ∧ s ≤ 59 then
    some (encodeDT y m d h mi s)
  else Option.none

/-- Model of the parse_part helper inside ensure_date_value (source lines
566-575): a missing key, a None/blank value without default, or an
unparseable int raise (modelled as none, caught by the surrounding try). -/
def parse_part (fields : List (String × PyVal)) (k : String)
    (dflt : Option Int) : Option Int :=
  match dictGet fields k with
  | Option.none => dflt
  | some raw =>
    match raw with
    | .none => dflt
    | .str s => if pyStrip s = "" then dflt else parseIntStr (pyStrip s)
    | .int n => some n
    | .bool b => some (if b then 1 else 0)
    | _ => Option.none

/-- Candidate keys probed by the dict branch of ensure_date_value
(source lines 586-590). -/
def edvCandidateKeys : List String :=
  ["start", "startDate", "start_date", "from", "date", "dateStart",
   "date_start", "iso", "isoDate", "iso8601", "isoDateTime", "iso_datetime",
   "@value", "value", "datetime", "dateTime", "time", "timestamp", "end",
   "endDate", "end_date", "to", "until"]

/-- Model of ensure_date_value (source lines 549-641), fuel-bounded.
The int/float branch divides epoch seconds into days on the shared
timeline (fromtimestamp's range errors are not modelled); the string
branch strips and applies the dateutil parser dtp; timezone adjustment
and the final .date() truncation are order-preserving and modelled as the
identity. -/
def ensure_date_value_go (dtp : String → Option Int) :
    Nat → PyVal → Option Int
  | 0, _ => Option.none
  | fuel + 1, v =>
    if ¬ pyTruthy v then Option.none
    else
      match v with
      | .dict fields =>
        let ymd : Option Int :=
          if (dictGet fields "year").isSome ∧ (dictGet fields "month").isSome ∧
             (dictGet fields "day").isSome then
            match parse_part fields "year" Option.none,
                  parse_part fields "month" Option.none,
                  parse_part fields "day" Option.none,
                  parse_part fields "hour" (some 0),
                  parse_part fields "minute" (some 0) with
            | some y, some m, some d, some h, some mi => mkValidDT y m d h mi 0
            | _, _, _, _, _ => Option.none
          else Option.none
        match ymd with
        | some d => some d
        | Option.none =>
          match edvCandidateKeys.findSome? (fun k =>
              match dictGet fields k with
              | some kv =>
                if pyTruthy kv then ensure_date_value_go dtp fuel kv
                else Option.none
              | Option.none => Option.none) with
          | some d => some d
          | Option.none =>
            fields.findSome? (fun kv => ensure_date_value_go dtp fuel kv.2)
      | .list items =>
        items.findSome? (fun item => ensure_date_value_go dtp fuel item)
      | .int n =>
        let n2 : Int := if n > 1000000000000 then n / 1000 else n
        some (n2 / 86400)
      | .bool _ => some 0
      | .str s =>
        let s2 := pyStrip s
        if s2 = "" then Option.none else dtp s2
      | .none => Option.none

/-- Depth bound for the fuel-based traversals: ample for any JSON value
the program meets (the source recursion terminates on finite JSON;
nesting beyond this depth is not modelled). -/
def PY_DEPTH : Nat := 1000

/-- Entry point of ensure_date_value with sufficient fuel. -/
def ensure_date_value (dtp : String → Option Int) (v : PyVal) : Option Int :=
  ensure_date_value_go dtp PY_DEPTH v

/-- Model of extract_location (source lines 643-681), fuel-bounded. -/
def extract_location_go : Nat → PyVal → String
  | 0, _ => ""
  | fuel + 1, v =>
    if ¬ pyTruthy v then ""
    else
      match v with
      | .str s => pyStrip s
      | .dict fields =>
        let part1 := ["name", "venue", "label", "title", "venueName",
            "locationName"].filterMap (fun k =>
          let kv := pyGet (.dict fields) k
          if pyTruthy kv then some (pyStr kv) else Option.none)
        let addr := pyGet (.dict fields) "address"
        let part2 :=
          match addr with
          | .dict af =>
            ["addressLocality", "addressRegion", "addressCountry",
             "postalCode", "city", "country", "state",
             "region"].filterMap (fun k =>
              let kv := pyGet (.dict af) k
              if pyTruthy kv then some (pyStr kv) else Option.none)
          | .str s => [s]
          | _ => []
        let part3 :=
          match pyGet (.dict fields) "location" with
          | .dict lf =>
            let loc := extract_location_go fuel (.dict lf)
            if loc ≠ "" then [loc] else []
          | _ => []
        let part4 := ["city", "country", "addressLocality", "addressRegion",
            "addressCountry", "locality", "region", "state",
            "shortAddress"].filterMap (fun k =>
          let kv := pyGet (.dict fields) k
          if pyTruthy kv then some (pyStr kv) else Option.none)
        let parts := part1 ++ part2 ++ part3 ++ part4
        if parts ≠ [] then
          joinComma ((parts.filter (fun p => p ≠ "")).map pyStrip)
        else ""
      | .list items =>
        (items.findSome? (fun item =>
          let loc := extract_location_go fuel item
          if loc ≠ "" then some loc else Option.none)).getD ""
      | _ => ""

/-- Entry point of extract_location with sufficient fuel. -/
def extract_location (v : PyVal) : String :=
  extract_location_go PY_DEPTH v

/-- Model of first_value (source lines 683-697).  The function returns a
JSON value (PyVal.none plays the role of Python's None return): the first
key whose value is a truthy scalar, the first truthy element of a list
value, or the "url" field of a dict value (returned even when falsy, as
in the source). -/
def first_value (v : PyVal) (keys : List String) : PyVal :=
  match v with
  | .dict fields =>
    (keys.findSome? (fun k =>
      match dictGet fields k with
      | Option.none => Option.none
      | some val =>
        match val with
        | .list items =>
          items.findSome? (fun item =>
            if pyTruthy item then some item else Option.none)
        | .dict f2 =>
          match dictGet f2 "url" with
          | some u => some u
          | Option.none => Option.none
        | _ => if pyTruthy val then some val else Option.none)).getD .none
  | _ => .none

/-- EVENT_NAME_KEYS (source lines 526-529). -/
def EVENT_NAME_KEYS : List String :=
  ["name", "title", "eventName", "headline", "event_title", "shortTitle",
   "nameRaw", "displayName", "eventTitle"]

/-- EVENT_START_KEYS (source lines 530-536). -/
def EVENT_START_KEYS : List String :=
  ["startDate", "start_date", "start", "start_time", "startTime", "startAt",
   "start_at", "startLocal", "start_local", "startUTC", "startUtc",
   "startTimestamp", "startsAt", "date", "eventStart", "eventStartDate",
   "event_start", "eventDate", "event_date", "eventDateTime",
   "event_date_time", "dateStart", "date_start", "startDateTime",
   "start_date_time", "localDate", "dateTime"]

/-- EVENT_END_KEYS (source lines 537-542). -/
def EVENT_END_KEYS : List String :=
  ["endDate", "end_date", "end", "end_time", "endTime", "endAt", "end_at",
   "endLocal", "end_local", "endUTC", "endUtc", "endTimestamp", "endsAt",
   "eventEnd", "eventEndDate", "event_end", "eventEndTime",
   "eventEndDateTime", "dateEnd", "date_end", "endDateTime",
   "end_date_time"]

/-- EVENT_URL_KEYS (source lines 543-547). -/
def EVENT_URL_KEYS : List String :=
  ["url", "link", "ticket_url", "tickets", "website", "permalink", "slug",
   "eventUrl", "eventURL", "event_url", "shareUrl", "shareURL", "share_url",
   "shareLink", "path", "href", "webpage"]

/-- Container keys probed for nested start/end data (source lines 742 and
793/818). -/
def eventContainerKeys : List String :=
  ["dates", "dateInfo", "schedule", "eventDates", "timing", "times"]

/-- Lowercased type names of a JSON @type-like value (source
type_normalized, lines 705-710). -/
def type_normalized : PyVal → List String
  | .str s => [strLower s]
  | .list items =>
    items.filterMap (fun t =>
      if pyTruthy t then some (strLower (pyStr t)) else Option.none)
  | _ => []

/-- Substring test "event" on a lowered type name. -/
def type_is_event (v : PyVal) : Bool :=
  (type_normalized v).any (fun t => pyContains t "event")

/-- Model of is_event_dict (source lines 700-751): rejects article types,
accepts explicit Event types, otherwise requires a name plus a start-like
key (possibly nested one level under a container key). -/
def is_event_dict (v : PyVal) : Bool :=
  match v with
  | .dict fields =>
    let typ := type_normalized (pyGet (.dict fields) "@type")
    if typ.any (fun t =>
        t = "newsarticle" ∨ t = "article" ∨ t = "blogposting") then false
    else if type_is_event (pyGet (.dict fields) "@type") then true
    else if ["modelType", "__typename", "kind", "itemType", "type"].any
        (fun tk => type_is_event (pyGet (.dict fields) tk)) then true
    else
      let has_name := EVENT_NAME_KEYS.any (fun k =>
        pyHasKey (.dict fields) k ∧ pyTruthy (pyGet (.dict fields) k))
      if ¬ has_name then false
      else
        let has_start (c : PyVal) : Bool :=
          match c with
          | .dict f2 => EVENT_START_KEYS.any (fun k => (dictGet f2 k).isSome)
          | _ => false
        if has_start (.dict fields) then true
        else eventContainerKeys.any (fun nk =>
          match pyGet (.dict fields) nk with
          | .dict f2 => has_start (.dict f2)
          | .list items => items.any (fun item => has_start item)
          | _ => false)
  | _ => false

/-- Structured calendar entry built by the event extractors (dates on the
shared integer timeline). -/
structure Event where
  title : String
  location : String
  start_date : Int
  end_date : Int
  url : String
  source : String
deriving DecidableEq, Repr

/-- Dict test. -/
def isPyDict : PyVal → Bool
  | .dict _ => true
  | _ => false

/-- Model of the unwrap loop of build_event_from_raw (source lines
777-786): repeatedly descend into the first of the keys event/node/item/
data/attributes/content whose value is an event-shaped dict. -/
def unwrapEventObj : Nat → PyVal → PyVal
  | 0, obj => obj
  | fuel + 1, obj =>
    match ["event", "node", "item", "data", "attributes",
        "content"].findSome? (fun k =>
      match obj with
      | .dict fields =>
        match dictGet fields k with
        | some val =>
          if isPyDict val ∧ is_event_dict val then some val else Option.none
        | Option.none => Option.none
      | _ => Option.none) with
    | some val => unwrapEventObj fuel val
    | Option.none => obj

/-- Search of the nested container keys for a start/end value (source
lines 792-806 and 817-831; the two copies differ only in the key list and
the direct sub-key). -/
def findValInContainers (obj raw : PyVal) (keys : List String)
    (subKey : String) : PyVal :=
  (eventContainerKeys.findSome? (fun ck =>
    let container := pyOrV (pyGet obj ck) (pyGet raw ck)
    match container with
    | .dict _ =>
      let sv := pyOrV (first_value container keys) (pyGet container subKey)
      if pyTruthy sv then some sv else Option.none
    | .list items =>
      items.findSome? (fun item =>
        match item with
        | .dict _ =>
          let sv := pyOrV (first_value item keys) (pyGet item subKey)
          if pyTruthy sv then some sv else Option.none
        | _ => Option.none)
    | _ => Option.none)).getD .none

/-- The ", ".join(filter(None, [obj.get("city"), obj.get("country")]))
fallback of the location chain (source lines 845-846). -/
def cityCountry (v : PyVal) : String :=
  joinComma ([pyGet v "city", pyGet v "country"].filterMap (fun x =>
    if pyTruthy x then some (pyStr x) else Option.none))

/-- Directory part of a URL path (up to and including the last slash). -/
def dropLastSegment (path : String) : String :=
  ⟨(path.data.reverse.dropWhile (fun c => c ≠ '/')).reverse⟩

/-- Simplified model of urllib.parse.urljoin covering the absolute,
scheme-relative, root-relative and plain-relative URLs the program
handles; dot-segment resolution is not modelled. -/
def urljoin (base rel : String) : String :=
  if rel = "" then base
  else if (urlparse rel).scheme ≠ "" then rel
  else if pyStartsWith rel "//" then (urlparse base).scheme ++ ":" ++ rel
  else
    let p := urlparse base
    if pyStartsWith rel "/" then p.scheme ++ "://" ++ p.netloc ++ rel
    else p.scheme ++ "://" ++ p.netloc ++ dropLastSegment p.path ++ rel

/-- Final record assembly of build_event_from_raw (source lines 832-834
and 879-886): reversed dates are swapped, never rejected. -/
def mkEventRecord (title location url source : String) (sd ed : Int) :
    Event :=
  if ed < sd then ⟨title, location, ed, sd, url, source⟩
  else ⟨title, location, sd, ed, url, source⟩

/-- Model of build_event_from_raw (source lines 774-886).  URL values are
assumed to be strings (a non-string truthy URL would make the source
raise on .startswith, a case outside every claim). -/
def build_event_from_raw (dtp : String → Option Int) (raw : PyVal)
    (source base_url : String) : Option Event :=
  match raw with
  | .dict _ =>
    let obj := unwrapEventObj PY_DEPTH raw
    let title := pyOrV (first_value obj EVENT_NAME_KEYS)
      (first_value raw EVENT_NAME_KEYS)
    if ¬ pyTruthy title then Option.none
    else
      let start_val0 := pyOrV (first_value obj EVENT_START_KEYS)
        (first_value raw EVENT_START_KEYS)
      let start_val :=
        if pyTruthy start_val0 then start_val0
        else findValInContainers obj raw EVENT_START_KEYS "start"
      match ensure_date_value dtp start_val with
      | Option.none => Option.none
      | some start_date =>
        let end_val0 := pyOrV (first_value obj EVENT_END_KEYS)
          (first_value raw EVENT_END_KEYS)
        let end_val1 :=
          if pyTruthy end_val0 then end_val0
          else
            match start_val with
            | .dict _ =>
              (["end", "endDate", "end_date", "to",
                "until"].findSome? (fun k =>
                if pyTruthy (pyGet start_val k) then some (pyGet start_val k)
                else Option.none)).getD .none
            | _ => .none
        let end_val :=
          if pyTruthy end_val1 then end_val1
          else findValInContainers obj raw EVENT_END_KEYS "end"
        let end_date := (ensure_date_value dtp end_val).getD start_date
        let location0 :=
          pyOrStr (extract_location (pyGet obj "location"))
          (pyOrStr (extract_location (pyGet obj "venue"))
          (pyOrStr (extract_location (pyGet obj "place"))
          (pyOrStr (extract_location (pyGet obj "eventLocation"))
          (pyOrStr (extract_location (pyGet obj "club"))
          (pyOrStr (extract_location (pyGet raw "venue"))
          (pyOrStr (extract_location (pyGet raw "location"))
          (pyOrStr (extract_location (pyGet raw "eventLocation"))
          (pyOrStr (cityCountry obj) (cityCountry raw)))))))))
        let location := if location0 ≠ "" then clean_text location0 400
          else ""
        let raw_url0 := pyOrV (first_value obj EVENT_URL_KEYS)
          (first_value raw EVENT_URL_KEYS)
        let raw_url1 :=
          match raw_url0 with
          | .dict f2 => pyOrV ((dictGet f2 "url").getD .none)
              ((dictGet f2 "@id").getD .none)
          | _ => raw_url0
        let raw_url2 :=
          match raw_url1 with
          | .list items => (items.findSome? (fun x =>
              if pyTruthy x then some x else Option.none)).getD .none
          | _ => raw_url1
        let raw_url3 : String :=
          match raw_url2 with
          | .str s => pyStrip s
          | _ => ""
        let url :=
          if raw_url3 ≠ "" then
            if pyStartsWith raw_url3 "//" then
              (urlparse base_url).scheme ++ ":" ++ raw_url3
            else if pyStartsWith raw_url3 "http" then raw_url3
            else urljoin base_url raw_url3
          else base_url
        if source = "Resident Advisor" ∧
            ¬ pyContains (urlparse url).path "/events" then Option.none
        else if source = "Resident Advisor" ∧ location = "" then Option.none
        else some (mkEventRecord (clean_text (pyStr title) 400) location url
          source start_date end_date)
  | _ => Option.none

/-- Per-event body of scrape_facebook_events (source lines 1062-1090):
note that the end date is NOT swapped below the start date here; the two
window checks compare against the window bounds only. -/
def fb_event_from_data (dtp : String → Option Int)
    (start_date end_date : Int) (label : String) (ev : PyVal) :
    Option Event :=
  let name := clean_text
    (if pyTruthy (pyGet ev "name") then pyStr (pyGet ev "name") else "") 400
  if name = "" then Option.none
  else
    let start_val := pyGet ev "start_time"
    let end_val := pyOrV (pyGet ev "end_time") start_val
    let start_date_val := ensure_date_value dtp start_val
    let end_date_val :=
      match ensure_date_value dtp end_val with
      | some d => some d
      | Option.none => start_date_val
    match start_date_val with
    | Option.none => Option.none
    | some sd =>
      if hskip : ∃ ed, end_date_val = some ed ∧ ed < start_date then
        Option.none
      else if sd > end_date then Option.none
      else
        let location :=
          match pyGet ev "place" with
          | .dict pf => extract_location (.dict pf)
          | _ => ""
        let fb_url :=
          if pyTruthy (pyGet ev "id") then
            "https://www.facebook.com/events/" ++ pyStr (pyGet ev "id")
          else ""
        some ⟨name, location, sd, end_date_val.getD sd, fb_url,
          "Facebook " ++ label⟩

/-- The data-list loop of scrape_facebook_events: one page's events
payload (network and Graph-API paging abstracted away). -/
def fb_events_from_list (dtp : String → Option Int)
    (start_date end_date : Int) (label : String)
    (data_list : List PyVal) : List Event :=
  data_list.filterMap (fb_event_from_data dtp start_date end_date label)

/-! ## Claim C4: event date sanity -/

/-- Date parser table for the C4 scenarios. -/
def c4_dtp : String → Option Int := fun s =>
  if s = "S20" then some 20 else if s = "S10" then some 10 else Option.none

/-- A Facebook Graph event whose start_time parses to day 20 and end_time
to day 10 (reversed). -/
def c4_fb_event : PyVal :=
  .dict [("id", .str "123"), ("name", .str "Rave Night"),
         ("start_time", .str "S20"), ("end_time", .str "S10")]

/-- C4 counterexample: scrape_facebook_events keeps reversed dates: for a
window of days 1-31, the event built from c4_fb_event passes both window
checks and is stored with end_date = 10 < start_date = 20 — no swap and
no rejection, contradicting end_date >= start_date for every source. -/
theorem C4_counterexample :
    fb_events_from_list c4_dtp 1 31 "Hospitality" [c4_fb_event]
      = [⟨"Rave Night", "", 20, 10,
          "https://www.facebook.com/events/123", "Facebook Hospitality"⟩] ∧
    (10 : Int) < 20 := by
  refine ⟨?_, by decide⟩
  rfl

/-- C4 (amended): every event record constructed by build_event_from_raw
(the JSON-LD / embedded-JSON extractor) satisfies
start_date <= end_date — reversed source dates are swapped, not kept or
rejected; the Facebook Graph path lacks this guarantee (see the
counterexample). -/
theorem C4_build_event_dates (dtp : String → Option Int) (raw : PyVal)
    (source base_url : String) (ev : Event)
    (h : build_event_from_raw dtp raw source base_url = some ev) :
    ev.start_date ≤ ev.end_date := by
  have hrec : ∀ (t l u s : String) (sd ed : Int),
      (mkEventRecord t l u s sd ed).start_date
        ≤ (mkEventRecord t l u s sd ed).end_date := by
    intro t l u s sd ed
    unfold mkEventRecord
    split
    · simp only
      omega
    · simp only
      omega
  have hguard : ∀ (c1 : Prop) (inst1 : Decidable c1) (c2 : Prop)
      (inst2 : Decidable c2) (ev2 : Event),
      (if c1 then Option.none else if c2 then Option.none else some ev2)
        = some ev → ev = ev2 := by
    intro c1 inst1 c2 inst2 ev2 hh
    by_cases h1 : c1
    · rw [if_pos h1] at hh
      cases hh
    · rw [if_neg h1] at hh
      by_cases h2 : c2
      · rw [if_pos h2] at hh
        cases hh
      · rw [if_neg h2] at hh
        injection hh with h3
        exact h3.symm
  cases raw with
  | dict fields =>
    simp only [build_event_from_raw] at h
    split at h
    · cases h
    · split at h
      · cases h
      · have h4 := hguard _ _ _ _ _ h
        rw [h4]
        apply hrec
  | none => simp [build_event_from_raw] at h
  | bool b => simp [build_event_from_raw] at h
  | int n => simp [build_event_from_raw] at h
  | str s => simp [build_event_from_raw] at h
  | list items => simp [build_event_from_raw] at h

/-- The JSON-LD payload of the C4 witness: startDate and endDate arrive
reversed. -/
def c4_raw : PyVal :=
  .dict [("@type", .str "Event"), ("name", .str "Liquicity Festival"),
         ("startDate", .str "S20"), ("endDate", .str "S10"),
         ("url", .str "https://liquicity.com/e")]

/-- The event build_event_from_raw constructs from c4_raw: the reversed
dates are swapped. -/
def c4_event : Event :=
  ⟨"Liquicity Festival", "", 10, 20, "https://liquicity.com/e", "Liquicity"⟩

/-- Witness for C4_build_event_dates: the reversed JSON-LD dates come out
swapped, hence ordered. -/
theorem C4_build_event_dates_witness :
    c4_event.start_date ≤ c4_event.end_date :=
  C4_build_event_dates c4_dtp c4_raw "Liquicity" "https://www.liquicity.com/"
    c4_event rfl

/-! ## Claim C9: event priority filtering (source lines 402-415, 498-514,
1111-1168) -/

/-- EVENT_KEYWORDS brand/headliner list (source lines 402-409). -/
def EVENT_KEYWORDS : List String :=
  ["hospitality", "rampage", "liquicity", "dnb allstars", "allstars",
   "darkshire", "beats for love", "hoofbeats", "roxy", "epic", "korsakov",
   "hybrid minds", "imanu", "dimension", "etherwood", "sigma",
   "sub focus", "andy c", "netsky", "friction",
   "black sun empire", "camo & krooked", "bou", "sota",
   "kanine", "k-motionz", "merikan", "alix perez", "phace", "venjent",
   "akov"]

/-- Model of event_is_priority (source lines 411-415): a binary flag, not
a three-way tier. -/
def event_is_priority (title : String) (foreign_guest : Bool) : Bool :=
  if foreign_guest then true
  else EVENT_KEYWORDS.any (fun k => pyContains (strLower title) k)

/-- DnBHeard calendar entry as built by parse_dnbeheard_lines (source
lines 467-473). -/
structure CzEvent where
  title : String
  date : Int
  link : String
  city : String
  foreign_guest : Bool
deriving DecidableEq, Repr

/-- Window filter of scrape_dnbeheard_window (source lines 498-502),
applied to the parsed calendar items (page download and HTML parsing
abstracted away as the items input). -/
def dnbeheard_window_filter (items : List CzEvent) (s e : Int) :
    List CzEvent :=
  items.filter (fun it => s ≤ it.date ∧ it.date ≤ e)

/-- Dedup key (title.lower(), date) of the DnBHeard dedupe (source line
507; the iso-formatted date string is injective in the date). -/
def czKey (it : CzEvent) : String × Int := (strLower it.title, it.date)

/-- First-occurrence-per-key filter of the DnBHeard dedupe loop (source
lines 504-511). -/
def czKeepFirsts : List CzEvent → List (String × Int) → List CzEvent
  | [], _ => []
  | it :: rest, seen =>
    if czKey it ∈ seen then czKeepFirsts rest seen
    else it :: czKeepFirsts rest (czKey it :: seen)

/-- The deduplicated, date-sorted in-window items (source lines 504-511). -/
def dnbeheard_unique (items : List CzEvent) (s e : Int) : List CzEvent :=
  czKeepFirsts
    ((dnbeheard_window_filter items s e).insertionSort
      (fun a b => a.date ≤ b.date)) []

/-- Final selection of scrape_dnbeheard_window (source lines 513-514):
the priority events if any exist, otherwise everything. -/
def scrape_dnbeheard_select (items : List CzEvent) (s e : Int) :
    List CzEvent :=
  let pri := (dnbeheard_unique items s e).filter
    (fun x => event_is_priority x.title x.foreign_guest)
  if pri ≠ [] then pri else dnbeheard_unique items s e

/-- Lexicographic Bool comparison of char lists. -/
def charListLe : List Char → List Char → Bool
  | [], _ => true
  | _ :: _, [] => false
  | a :: as, b :: bs => if a = b then charListLe as bs else decide (a < b)

/-- String comparison used by the tuple sort key. -/
def strLeLex (a b : String) : Bool := charListLe a.data b.data

/-- Sort relation of scrape_world_events_window (source line 1157):
ascending by (start_date, title.lower()). -/
def evLe (a b : Event) : Bool :=
  decide (a.start_date < b.start_date) ||
  (decide (a.start_date = b.start_date) &&
    strLeLex (strLower a.title) (strLower b.title))

/-- Dedup key of the world-events combine (source lines 1158-1163). -/
def evKey (ev : Event) : String × String × Int × Int :=
  (strLower (pyStrip ev.title), strLower (pyStrip ev.location),
   ev.start_date, ev.end_date)

/-- First-occurrence-per-key filter of the world-events dedupe (source
lines 1155-1167). -/
def evKeepFirsts : List Event → List (String × String × Int × Int) →
    List Event
  | [], _ => []
  | ev :: rest, seen =>
    if evKey ev ∈ seen then evKeepFirsts rest seen
    else ev :: evKeepFirsts rest (evKey ev :: seen)

/-- Model of the combine-and-dedupe tail of scrape_world_events_window
(source lines 1111-1168) over the per-scraper result lists and the
Facebook list; the per-event datetime-to-date coercions of the source are
the identity on the model's integer dates.  Note: no priority filtering
happens here. -/
def scrape_world_events_window_model (scraped : List (List Event))
    (fb : List Event) : List Event :=
  let combined := scraped.foldr (· ++ ·) [] ++ fb
  evKeepFirsts (combined.insertionSort (fun a b => evLe a b)) []

/-- A world event carrying a brand keyword. -/
def c9_pri_event : Event :=
  ⟨"Hospitality London", "London", 10, 10,
   "https://hospitalitydnb.com/e1", "Hospitality"⟩

/-- A world event without any brand/headliner keyword. -/
def c9_low_event : Event :=
  ⟨"Random Warehouse Party", "Leeds", 11, 11, "https://x.com/e2",
   "Hospitality"⟩

/-- C9 counterexample: the world-events window applies NO priority
filtering: with a keyword (higher-tier) event present in the window, the
non-priority (low) event still appears in the output, falsifying
"low-priority events are dropped from the output whenever any
higher-tier events exist in the same window" for every extracted event.
Also, the code computes only a binary flag — no top/mid/low tiers
exist. -/
theorem C9_counterexample :
    scrape_world_events_window_model [[c9_pri_event, c9_low_event]] []
      = [c9_pri_event, c9_low_event] ∧
    event_is_priority c9_pri_event.title false = true ∧
    event_is_priority c9_low_event.title false = false := by
  refine ⟨by decide, by decide, by decide⟩

/-- C9 (amended): only the ČR/SK (DnBHeard) extractor filters by
priority, and the classification is binary — event_is_priority from the
single brand/headliner keyword list (or the foreign-guest flag) — not a
top/mid/low tier: whenever any priority event exists among the window's
deduplicated events, the selection contains exactly the priority events
(every non-priority event is dropped); world events undergo no priority
filtering. -/
theorem C9_priority_filter (items : List CzEvent) (s e : Int)
    (hex : ∃ x ∈ dnbeheard_unique items s e,
      event_is_priority x.title x.foreign_guest = true) :
    (∀ y ∈ scrape_dnbeheard_select items s e,
      event_is_priority y.title y.foreign_guest = true) ∧
    (∀ y ∈ dnbeheard_unique items s e,
      event_is_priority y.title y.foreign_guest = false →
      y ∉ scrape_dnbeheard_select items s e) := by
  have hpri : (dnbeheard_unique items s e).filter
      (fun x => event_is_priority x.title x.foreign_guest) ≠ [] := by
    obtain ⟨x, hx, hpx⟩ := hex
    intro hc
    have hmem : x ∈ (dnbeheard_unique items s e).filter
        (fun x => event_is_priority x.title x.foreign_guest) :=
      List.mem_filter.mpr ⟨hx, hpx⟩
    rw [hc] at hmem
    simp at hmem
  constructor
  · intro y hy
    simp only [scrape_dnbeheard_select] at hy
    rw [if_pos hpri] at hy
    exact (List.mem_filter.mp hy).2
  · intro y _ hnp hmem
    simp only [scrape_dnbeheard_select] at hmem
    rw [if_pos hpri] at hmem
    have hcontra := (List.mem_filter.mp hmem).2
    rw [hnp] at hcontra
    cases hcontra

/-- DnBHeard items for the C9 witness: one keyword event, one plain
event, both in window. -/
def c9_items : List CzEvent :=
  [⟨"Hospitality Prague", 5, "", "Praha", false⟩,
   ⟨"Local Night", 6, "", "Brno", false⟩]

/-- Witness for C9_priority_filter: with a priority event in the window,
every selected event is priority. -/
theorem C9_priority_filter_witness :
    event_is_priority "Hospitality Prague" false = true :=
  (C9_priority_filter c9_items 1 10 (by decide)).1
    ⟨"Hospitality Prague", 5, "", "Praha", false⟩ (by decide)

end Aggregator
